import Mathlib

/-!
# Bitboard checkers engine

A shallow embedding of `bit_utils.c` and of the rules engine of `checkers.c`
(`initialize_game`, `generate_moves`, `generate_captures`, `has_any_captures`,
`is_move_valid`, `make_move`), followed by theorems about it.

Conventions of the embedding:

* a `uint64_t` is a `Nat`; the C type guarantees the value is below `2 ^ 64`,
  which theorems assume through `GameState.wf` where it matters, and the one
  operator whose result depends on the width (`~`) is modelled with the width;
* an `int` is an `Int`; the engine only ever computes indices between `-18` and
  `81`, so no `int` overflow is modelled; `/` and `%` of C are `Int.tdiv` and
  `Int.tmod` (truncation towards zero);
* a function that mutates `*state` returns the new state;
* a shift `x << k` or `x >> k` is only defined in C for `0 <= k < 64`; the
  model shifts by `k.toNat`, and the theorems are stated for indices `0..63`;
  that the engine stays within `0..63` is proved on a second copy of the
  functions that logs every bit index (`generate_moves_log` and the others);
* of what the program prints, only the line printed by `is_move_valid` is
  modelled (`is_move_valid_run`); of `game_loop`, only the checks of one turn
  (`game_loop_turn`);
* that the queries leave the state and the standard output alone is stated on a
  state-passing copy of them (`World`, `is_move_valid_st` and the others).
-/

namespace Checkers

/-! ## bit_utils.c -/

/-- The value `(uint64_t)1 << bit`. -/
def bit_mask (bit : Int) : Nat := (1 <<< bit.toNat) % 2 ^ 64

/-- The 64-bit complement `~x` of a `uint64_t`. -/
def not64 (x : Nat) : Nat := (2 ^ 64 - 1) ^^^ x

/-- Source `set_bit`: `*num |= ((uint64_t)1 << bit)`. -/
def set_bit (num : Nat) (bit : Int) : Nat := num ||| bit_mask bit

/-- Source `clear_bit`: `*num &= ~((uint64_t)1 << bit)`. -/
def clear_bit (num : Nat) (bit : Int) : Nat := num &&& not64 (bit_mask bit)

/-- Source `toggle_bit`: `*num ^= ((uint64_t)1 << bit)`. -/
def toggle_bit (num : Nat) (bit : Int) : Nat := num ^^^ bit_mask bit

/-- Source `get_bit`: `return (num >> bit) & 1`. -/
def get_bit (num : Nat) (bit : Int) : Int := (((num >>> bit.toNat) &&& 1 : Nat) : Int)

/-! ## checkers.c -/

/-- The three bitboards of the game. -/
structure GameState where
  player_one_pieces : Nat
  player_two_pieces : Nat
  kings : Nat
deriving DecidableEq

/-- Every field of the state is a `uint64_t`. -/
def GameState.wf (s : GameState) : Prop :=
  s.player_one_pieces < 2 ^ 64 ∧ s.player_two_pieces < 2 ^ 64 ∧ s.kings < 2 ^ 64

instance (s : GameState) : Decidable s.wf := by
  unfold GameState.wf; infer_instance

/-- One pass of the inner `for (col ...)` loop body of `initialize_game`. -/
def init_cell (row : Int) (mask : Nat) (col : Nat) : Nat :=
  if (row + (col : Int)).tmod 2 = 1 then set_bit mask (row * 8 + (col : Int)) else mask

/-- The loop `for (row = lo; row < lo + 3; row++) for (col = 0; col < 8; col++)`
of `initialize_game`, filling one player's mask. -/
def init_rows (lo : Nat) (mask : Nat) : Nat :=
  (List.range 3).foldl
    (fun m r => (List.range 8).foldl (init_cell ((lo + r : Nat) : Int)) m) mask

/-- Source `initialize_game`: the three masks are zeroed, then rows 0..2 are
filled for Player 2 and rows 5..7 for Player 1. -/
def initialize_game (state : GameState) : GameState :=
  let s0 : GameState := { state with player_one_pieces := 0, player_two_pieces := 0, kings := 0 }
  let s1 : GameState := { s0 with player_two_pieces := init_rows 0 s0.player_two_pieces }
  { s1 with player_one_pieces := init_rows 5 s1.player_one_pieces }

/-- The array `directions[0..num_directions)` built by `generate_moves` and
`generate_captures`. -/
def directions (player : Int) (is_king : Int) : List Int :=
  (if player = 1 ∨ is_king ≠ 0 then [-9, -7] else []) ++
  (if player = 2 ∨ is_king ≠ 0 then [7, 9] else [])

/-- Body of the `for` loop of `generate_moves` for one direction. -/
def move_step (state : GameState) (idx : Int) (moves : Nat) (d : Int) : Nat :=
  let occupied := state.player_one_pieces ||| state.player_two_pieces
  let target_idx := idx + d
  if target_idx ≥ 0 ∧ target_idx < 64 then
    if get_bit occupied target_idx = 0 then
      let row := idx.tdiv 8
      let col := idx.tmod 8
      let target_row := target_idx.tdiv 8
      let target_col := target_idx.tmod 8
      if (target_row - row).natAbs = 1 ∧ (target_col - col).natAbs = 1 ∧
          (target_row + target_col).tmod 2 = 1 then
        set_bit moves target_idx
      else moves
    else moves
  else moves

/-- Source `generate_moves`. -/
def generate_moves (state : GameState) (idx : Int) (player : Int) : Nat :=
  let is_king := get_bit state.kings idx
  (directions player is_king).foldl (move_step state idx) 0

/-- The local `opponent_pieces` of `generate_captures`. -/
def opponent_of (state : GameState) (player : Int) : Nat :=
  if player = 1 then state.player_two_pieces else state.player_one_pieces

/-- The local `player_pieces` of `has_any_captures`, `make_move` and `game_loop`. -/
def pieces_of (state : GameState) (player : Int) : Nat :=
  if player = 1 then state.player_one_pieces else state.player_two_pieces

/-- Body of the `for` loop of `generate_captures` for one direction. -/
def capture_step (state : GameState) (idx : Int) (player : Int) (captures : Nat) (d : Int) : Nat :=
  let opponent_pieces := opponent_of state player
  let occupied := state.player_one_pieces ||| state.player_two_pieces
  let middle_idx := idx + d
  let target_idx := idx + 2 * d
  if middle_idx ≥ 0 ∧ middle_idx < 64 ∧ target_idx ≥ 0 ∧ target_idx < 64 then
    if get_bit opponent_pieces middle_idx ≠ 0 ∧ get_bit occupied target_idx = 0 then
      let row := idx.tdiv 8
      let col := idx.tmod 8
      let target_row := target_idx.tdiv 8
      let target_col := target_idx.tmod 8
      if (target_row - row).natAbs = 2 ∧ (target_col - col).natAbs = 2 ∧
          (target_row + target_col).tmod 2 = 1 then
        set_bit captures target_idx
      else captures
    else captures
  else captures

/-- Source `generate_captures`. -/
def generate_captures (state : GameState) (idx : Int) (player : Int) : Nat :=
  let is_king := get_bit state.kings idx
  (directions player is_king).foldl (capture_step state idx player) 0

/-- Source `has_any_captures`: the scan of `idx = 0..63` returns 1 at the first
piece of the player with a non-zero capture set, and 0 when there is none. -/
def has_any_captures (state : GameState) (player : Int) : Int :=
  let player_pieces := pieces_of state player
  if (List.range 64).any (fun idx =>
      decide (get_bit player_pieces (idx : Int) ≠ 0) &&
      decide (generate_captures state (idx : Int) player ≠ 0))
  then 1 else 0

/-- Source `is_move_valid`, with what it writes to standard output: the pair of
the returned classification (0 invalid, 1 simple, 2 capture) and the printed
text. -/
def is_move_valid_run (state : GameState) (from_idx to_idx : Int) (player : Int) :
    Int × List String :=
  let moves := generate_moves state from_idx player
  let captures := generate_captures state from_idx player
  let to_mask := bit_mask to_idx
  let must_capture := has_any_captures state player
  if must_capture ≠ 0 then
    if captures &&& to_mask ≠ 0 then (2, [])
    else (0, ["You must capture if possible.\n"])
  else
    if captures &&& to_mask ≠ 0 then (2, [])
    else if moves &&& to_mask ≠ 0 then (1, [])
    else (0, [])

/-- The value returned by `is_move_valid`. -/
def is_move_valid (state : GameState) (from_idx to_idx : Int) (player : Int) : Int :=
  (is_move_valid_run state from_idx to_idx player).1

/-- Source `make_move`. The classification is taken on the state as it is on
entry; then the piece is moved, the king mask updated, and a capture resolved. -/
def make_move (state : GameState) (from_idx to_idx : Int) (player : Int) : GameState :=
  let move_type := is_move_valid state from_idx to_idx player
  -- Move the piece
  let s1 : GameState :=
    if player = 1 then
      { state with
        player_one_pieces := set_bit (clear_bit state.player_one_pieces from_idx) to_idx }
    else
      { state with
        player_two_pieces := set_bit (clear_bit state.player_two_pieces from_idx) to_idx }
  -- Update kings
  let row := to_idx.tdiv 8
  let s2 : GameState :=
    if (player = 1 ∧ row = 0) ∨ (player = 2 ∧ row = 7) then
      { s1 with kings := set_bit s1.kings to_idx }
    else if get_bit s1.kings from_idx ≠ 0 then
      { s1 with kings := set_bit (clear_bit s1.kings from_idx) to_idx }
    else
      { s1 with kings := clear_bit s1.kings to_idx }
  -- Handle captures
  if move_type = 2 then
    let captured_idx := from_idx + (to_idx - from_idx).tdiv 2
    let s3 : GameState :=
      if player = 1 then
        { s2 with player_two_pieces := clear_bit s2.player_two_pieces captured_idx }
      else
        { s2 with player_one_pieces := clear_bit s2.player_one_pieces captured_idx }
    { s3 with kings := clear_bit s3.kings captured_idx }
  else s2

/-! ## Specification vocabulary -/

/-- Square `i` is playable: `(row + col) % 2 == 1`. -/
def playable (i : Nat) : Prop := (i / 8 + i % 8) % 2 = 1

instance (i : Nat) : Decidable (playable i) := by
  unfold playable; infer_instance

/-- Number of set bits of a 64-bit mask. -/
def popcount (m : Nat) : Nat := (List.range 64).countP (fun i => m.testBit i)

/-- Invariant: no square is occupied by both players. -/
def disjoint_inv (s : GameState) : Prop :=
  s.player_one_pieces &&& s.player_two_pieces = 0

/-- Invariant: a king bit implies an occupying piece. -/
def kings_inv (s : GameState) : Prop :=
  ∀ i : Nat, s.kings.testBit i = true →
    (s.player_one_pieces ||| s.player_two_pieces).testBit i = true

/-- Invariant: every set bit of every mask is on a playable square. -/
def playable_inv (s : GameState) : Prop :=
  ∀ i : Nat, (s.player_one_pieces.testBit i = true ∨ s.player_two_pieces.testBit i = true ∨
    s.kings.testBit i = true) → playable i

instance (s : GameState) : Decidable (disjoint_inv s) := by
  unfold disjoint_inv; infer_instance

/-! ## Concrete positions -/

/-- The position at the start of a game. -/
def start_state : GameState := initialize_game ⟨0, 0, 0⟩

/-- Player 1 has a man on 44, free to step to 35, and a man on 26 that can jump
the Player 2 man on 19 and land on 12. -/
def mandatory_state : GameState :=
  { player_one_pieces := 2 ^ 26 ||| 2 ^ 44, player_two_pieces := 2 ^ 19, kings := 0 }

/-- Player 1 man on 26; Player 2 king on 19 and man on 17; square 12 empty. -/
def capture_state : GameState :=
  { player_one_pieces := 2 ^ 26, player_two_pieces := 2 ^ 19 ||| 2 ^ 17, kings := 2 ^ 19 }

/-- Player 1 king on 10, one step from its back rank; Player 2 man on 40. -/
def king_below_back_rank : GameState :=
  { player_one_pieces := 2 ^ 10, player_two_pieces := 2 ^ 40, kings := 2 ^ 10 }

/-- Player 1 king on 1, on its back rank; Player 2 man on 40. -/
def king_on_back_rank : GameState :=
  { player_one_pieces := 2 ^ 1, player_two_pieces := 2 ^ 40, kings := 2 ^ 1 }

/-- Player 2 man on 49, one step from row 7; Player 1 man on 26. -/
def promotion_state : GameState :=
  { player_one_pieces := 2 ^ 26, player_two_pieces := 2 ^ 49, kings := 0 }

/-- The conjunction of the tests that the loop body of `generate_moves` applies
to direction `d` before it sets the target bit. -/
def move_ok (state : GameState) (idx d : Int) : Prop :=
  (idx + d ≥ 0 ∧ idx + d < 64) ∧
  get_bit (state.player_one_pieces ||| state.player_two_pieces) (idx + d) = 0 ∧
  (((idx + d).tdiv 8 - idx.tdiv 8).natAbs = 1 ∧ ((idx + d).tmod 8 - idx.tmod 8).natAbs = 1 ∧
    ((idx + d).tdiv 8 + (idx + d).tmod 8).tmod 2 = 1)

instance (state : GameState) (idx d : Int) : Decidable (move_ok state idx d) := by
  unfold move_ok; infer_instance

/-- The conjunction of the tests that the loop body of `generate_captures`
applies to direction `d` before it sets the target bit. -/
def capture_ok (state : GameState) (idx : Int) (player : Int) (d : Int) : Prop :=
  (idx + d ≥ 0 ∧ idx + d < 64 ∧ idx + 2 * d ≥ 0 ∧ idx + 2 * d < 64) ∧
  (get_bit (opponent_of state player) (idx + d) ≠ 0 ∧
    get_bit (state.player_one_pieces ||| state.player_two_pieces) (idx + 2 * d) = 0) ∧
  (((idx + 2 * d).tdiv 8 - idx.tdiv 8).natAbs = 2 ∧
    ((idx + 2 * d).tmod 8 - idx.tmod 8).natAbs = 2 ∧
    ((idx + 2 * d).tdiv 8 + (idx + 2 * d).tmod 8).tmod 2 = 1)

instance (state : GameState) (idx player d : Int) : Decidable (capture_ok state idx player d) := by
  unfold capture_ok; infer_instance

/-- The local `captured_idx` of `make_move`. -/
def captured_idx (from_idx to_idx : Int) : Int := from_idx + (to_idx - from_idx).tdiv 2

/-- Player `p`'s back rank holds square `to_idx`: the first test of the king
update of `make_move`. -/
def back_rank (player : Int) (to_idx : Int) : Prop :=
  (player = 1 ∧ to_idx.tdiv 8 = 0) ∨ (player = 2 ∧ to_idx.tdiv 8 = 7)

instance (player to_idx : Int) : Decidable (back_rank player to_idx) := by
  unfold back_rank; infer_instance

/-- The king mask of `make_move` after its `Update kings` block, before the
capture is resolved. -/
def kings_moved (state : GameState) (from_idx to_idx : Int) (player : Int) : Nat :=
  if back_rank player to_idx then set_bit state.kings to_idx
  else if get_bit state.kings from_idx ≠ 0 then set_bit (clear_bit state.kings from_idx) to_idx
  else clear_bit state.kings to_idx

/-- The direction set `D` of the spec's move and capture generation, by player
and king status: the two upward deltas for a man of Player 1, the two downward
deltas for a man of Player 2, all four deltas for a king. -/
def spec_directions (player : Int) (is_king : Bool) : List Int :=
  if is_king then [-9, -7, 7, 9] else if player = 1 then [-9, -7] else [7, 9]

/-- Player 1 man on 44; Player 2 men on 19 and 42; squares 12, 24, 26 and 33
empty. -/
def ownership_state : GameState :=
  { player_one_pieces := 2 ^ 44, player_two_pieces := 2 ^ 19 ||| 2 ^ 42, kings := 0 }

/-- One pass of the `while` body of `game_loop`, from the ownership check on,
for coordinates that were already parsed: the new state and the player to move
next. A `continue` leaves both unchanged. What the loop prints is left out. -/
def game_loop_turn (state : GameState) (current_player : Int) (from_idx to_idx : Int) :
    GameState × Int :=
  let player_pieces := pieces_of state current_player
  if get_bit player_pieces from_idx = 0 then (state, current_player)
  else
    let move_result := is_move_valid state from_idx to_idx current_player
    if move_result = 0 then (state, current_player)
    else (make_move state from_idx to_idx current_player, if current_player = 1 then 2 else 1)

/-- The state after a list of turns `(player, from, to)`, each applied with
`make_move` as `game_loop` does. -/
def run_turns : GameState → List (Int × Nat × Nat) → GameState
  | s, [] => s
  | s, (p, f, t) :: rest => run_turns (make_move s f t p) rest

/-- Every turn of the list passes the checks of `game_loop` on the state it is
played in: the origin holds a piece of the player and `is_move_valid` does not
return 0. -/
def valid_turns : GameState → List (Int × Nat × Nat) → Prop
  | _, [] => True
  | s, (p, f, t) :: rest =>
    (p = 1 ∨ p = 2) ∧ f ≤ 63 ∧ t ≤ 63 ∧ (pieces_of s p).testBit f = true ∧
    (is_move_valid s f t p = 1 ∨ is_move_valid s f t p = 2) ∧
    valid_turns (make_move s f t p) rest

/-- Number of turns of the list that player `q` plays and `is_move_valid`
classifies as Capture on the state they are played in. -/
def captures_by (q : Int) : GameState → List (Int × Nat × Nat) → Nat
  | _, [] => 0
  | s, (p, f, t) :: rest =>
    (if p = q ∧ is_move_valid s f t p = 2 then 1 else 0) +
      captures_by q (make_move s f t p) rest

/-! ## The engine with a log of its bit indices

The same functions once more, each returning next to its value the list, in
evaluation order, of every index it passes to `get_bit`, `set_bit` or
`clear_bit` and of every shift amount of a `(Bitboard)1 << k`. -/

/-- Loop body of `generate_moves` with its log: `get_bit(occupied, target_idx)`
and `set_bit(&moves, target_idx)`. -/
def move_step_log (state : GameState) (idx : Int) (acc : Nat × List Int) (d : Int) :
    Nat × List Int :=
  let occupied := state.player_one_pieces ||| state.player_two_pieces
  let target_idx := idx + d
  if target_idx ≥ 0 ∧ target_idx < 64 then
    if get_bit occupied target_idx = 0 then
      let row := idx.tdiv 8
      let col := idx.tmod 8
      let target_row := target_idx.tdiv 8
      let target_col := target_idx.tmod 8
      if (target_row - row).natAbs = 1 ∧ (target_col - col).natAbs = 1 ∧
          (target_row + target_col).tmod 2 = 1 then
        (set_bit acc.1 target_idx, acc.2 ++ [target_idx, target_idx])
      else (acc.1, acc.2 ++ [target_idx])
    else (acc.1, acc.2 ++ [target_idx])
  else acc

/-- Source `generate_moves` with its log, which starts with
`get_bit(state->kings, idx)`. -/
def generate_moves_log (state : GameState) (idx : Int) (player : Int) : Nat × List Int :=
  let is_king := get_bit state.kings idx
  (directions player is_king).foldl (move_step_log state idx) (0, [idx])

/-- Loop body of `generate_captures` with its log: `get_bit(opponent_pieces,
middle_idx)`, then, `&&` being lazy, `get_bit(occupied, target_idx)` only when
the first is non-zero, then `set_bit(&captures, target_idx)`. -/
def capture_step_log (state : GameState) (idx : Int) (player : Int) (acc : Nat × List Int)
    (d : Int) : Nat × List Int :=
  let opponent_pieces := opponent_of state player
  let occupied := state.player_one_pieces ||| state.player_two_pieces
  let middle_idx := idx + d
  let target_idx := idx + 2 * d
  if middle_idx ≥ 0 ∧ middle_idx < 64 ∧ target_idx ≥ 0 ∧ target_idx < 64 then
    if get_bit opponent_pieces middle_idx ≠ 0 then
      if get_bit occupied target_idx = 0 then
        let row := idx.tdiv 8
        let col := idx.tmod 8
        let target_row := target_idx.tdiv 8
        let target_col := target_idx.tmod 8
        if (target_row - row).natAbs = 2 ∧ (target_col - col).natAbs = 2 ∧
            (target_row + target_col).tmod 2 = 1 then
          (set_bit acc.1 target_idx, acc.2 ++ [middle_idx, target_idx, target_idx])
        else (acc.1, acc.2 ++ [middle_idx, target_idx])
      else (acc.1, acc.2 ++ [middle_idx, target_idx])
    else (acc.1, acc.2 ++ [middle_idx])
  else acc

/-- Source `generate_captures` with its log. -/
def generate_captures_log (state : GameState) (idx : Int) (player : Int) : Nat × List Int :=
  let is_king := get_bit state.kings idx
  (directions player is_king).foldl (capture_step_log state idx player) (0, [idx])

/-- The `for` loop of `has_any_captures` over the squares still to scan, with
its log: `get_bit(player_pieces, idx)`, then the log of `generate_captures` for a
square holding a piece; the scan stops at the first non-zero capture set. -/
def has_any_captures_scan (state : GameState) (player : Int) :
    List Nat → List Int → Int × List Int
  | [], log => (0, log)
  | idx :: rest, log =>
    if get_bit (pieces_of state player) (idx : Int) ≠ 0 then
      let r := generate_captures_log state (idx : Int) player
      if r.1 ≠ 0 then (1, log ++ [(idx : Int)] ++ r.2)
      else has_any_captures_scan state player rest (log ++ [(idx : Int)] ++ r.2)
    else has_any_captures_scan state player rest (log ++ [(idx : Int)])

/-- Source `has_any_captures` with its log. -/
def has_any_captures_log (state : GameState) (player : Int) : Int × List Int :=
  has_any_captures_scan state player (List.range 64) []

/-- Source `is_move_valid` with its log: the shift of `piece`, the two
generators, the shift of `to_mask`, then `has_any_captures`. -/
def is_move_valid_log (state : GameState) (from_idx to_idx : Int) (player : Int) :
    Int × List Int :=
  let moves := generate_moves_log state from_idx player
  let captures := generate_captures_log state from_idx player
  let to_mask := bit_mask to_idx
  let must_capture := has_any_captures_log state player
  let log := [from_idx] ++ moves.2 ++ captures.2 ++ [to_idx] ++ must_capture.2
  if must_capture.1 ≠ 0 then
    if captures.1 &&& to_mask ≠ 0 then (2, log) else (0, log)
  else
    if captures.1 &&& to_mask ≠ 0 then (2, log)
    else if moves.1 &&& to_mask ≠ 0 then (1, log)
    else (0, log)

/-- Source `make_move` with its log: the shifts of `from_mask` and `to_mask`,
`is_move_valid`, the move of the piece, the king update and the capture. -/
def make_move_log (state : GameState) (from_idx to_idx : Int) (player : Int) :
    GameState × List Int :=
  let move_type := is_move_valid_log state from_idx to_idx player
  let log0 := [from_idx, to_idx] ++ move_type.2 ++ [from_idx, to_idx]
  let s1 : GameState :=
    if player = 1 then
      { state with
        player_one_pieces := set_bit (clear_bit state.player_one_pieces from_idx) to_idx }
    else
      { state with
        player_two_pieces := set_bit (clear_bit state.player_two_pieces from_idx) to_idx }
  let row := to_idx.tdiv 8
  let s2 : GameState × List Int :=
    if (player = 1 ∧ row = 0) ∨ (player = 2 ∧ row = 7) then
      ({ s1 with kings := set_bit s1.kings to_idx }, log0 ++ [to_idx])
    else if get_bit s1.kings from_idx ≠ 0 then
      ({ s1 with kings := set_bit (clear_bit s1.kings from_idx) to_idx },
        log0 ++ [from_idx, from_idx, to_idx])
    else
      ({ s1 with kings := clear_bit s1.kings to_idx }, log0 ++ [from_idx, to_idx])
  if move_type.1 = 2 then
    let captured_idx := from_idx + (to_idx - from_idx).tdiv 2
    let s3 : GameState :=
      if player = 1 then
        { s2.1 with player_two_pieces := clear_bit s2.1.player_two_pieces captured_idx }
      else
        { s2.1 with player_one_pieces := clear_bit s2.1.player_one_pieces captured_idx }
    ({ s3 with kings := clear_bit s3.kings captured_idx }, s2.2 ++ [captured_idx, captured_idx])
  else s2

/-! ## The queries in state-passing style

The four query functions once more, now as the C functions they are: each
receives the memory it could write, here the `GameState` behind `state` and the
text on standard output, and returns it next to its value. -/

/-- What a call can change: the `GameState` behind the pointer `state`, and the
text written to standard output so far. -/
structure World where
  state : GameState
  out : List String
deriving DecidableEq

/-- Source `generate_moves` in state-passing style. Its statements assign only
to the locals `moves`, `occupied`, `is_king`, `directions`, `num_directions`,
`target_idx` and the row and column variables, and it calls only `get_bit` (by
value), `abs` and `set_bit(&moves, ...)` on its local: the memory is handed back
as received. -/
def generate_moves_st (w : World) (idx : Int) (player : Int) : Nat × World :=
  let is_king := get_bit w.state.kings idx
  ((directions player is_king).foldl (move_step w.state idx) 0, w)

/-- Source `generate_captures` in state-passing style; as for `generate_moves`,
only locals are assigned and `set_bit` is applied to the local `captures`. -/
def generate_captures_st (w : World) (idx : Int) (player : Int) : Nat × World :=
  let is_king := get_bit w.state.kings idx
  ((directions player is_king).foldl (capture_step w.state idx player) 0, w)

/-- The `for` loop of `has_any_captures` in state-passing style, over the squares
still to scan: each call of `generate_captures` receives the memory left by the
previous one. `player_pieces` is the copy taken before the loop. -/
def has_any_captures_scan_st (player : Int) (player_pieces : Nat) :
    List Nat → World → Int × World
  | [], w => (0, w)
  | idx :: rest, w =>
    if get_bit player_pieces (idx : Int) ≠ 0 then
      let r := generate_captures_st w (idx : Int) player
      if r.1 ≠ 0 then (1, r.2)
      else has_any_captures_scan_st player player_pieces rest r.2
    else has_any_captures_scan_st player player_pieces rest w

/-- Source `has_any_captures` in state-passing style. -/
def has_any_captures_st (w : World) (player : Int) : Int × World :=
  has_any_captures_scan_st player (pieces_of w.state player) (List.range 64) w

/-- Source `is_move_valid` in state-passing style: the three calls are chained
on the memory, and the `printf` of the must-capture branch appends its line to
standard output. -/
def is_move_valid_st (w : World) (from_idx to_idx : Int) (player : Int) : Int × World :=
  let moves := generate_moves_st w from_idx player
  let captures := generate_captures_st moves.2 from_idx player
  let to_mask := bit_mask to_idx
  let must_capture := has_any_captures_st captures.2 player
  let w3 := must_capture.2
  if must_capture.1 ≠ 0 then
    if captures.1 &&& to_mask ≠ 0 then (2, w3)
    else (0, { w3 with out := w3.out ++ ["You must capture if possible.\n"] })
  else
    if captures.1 &&& to_mask ≠ 0 then (2, w3)
    else if moves.1 &&& to_mask ≠ 0 then (1, w3)
    else (0, w3)

/-! ## Bit primitives as bit tests -/

/-- For an index below 64 the mask `(uint64_t)1 << bit` is the power of two. -/
theorem bit_mask_eq (b : Int) (h : b < 64) : bit_mask b = 2 ^ b.toNat := by
  unfold bit_mask
  rw [Nat.one_shiftLeft]
  apply Nat.mod_eq_of_lt
  apply Nat.pow_lt_pow_right (by norm_num)
  omega

/-- The value of `get_bit` is 1 when the bit is set and 0 otherwise. -/
theorem get_bit_eq (m : Nat) (b : Int) :
    get_bit m b = if m.testBit b.toNat then 1 else 0 := by
  unfold get_bit
  rw [Nat.and_one_is_mod, Nat.shiftRight_eq_div_pow, Nat.testBit_to_div_mod]
  rcases Nat.mod_two_eq_zero_or_one (m / 2 ^ b.toNat) with h | h <;> simp [h]

/-- The C test `!get_bit(m, b)` reads bit `b` as clear. -/
theorem get_bit_eq_zero (m : Nat) (b : Int) :
    get_bit m b = 0 ↔ m.testBit b.toNat = false := by
  rw [get_bit_eq]; split <;> simp_all

/-- The C test `get_bit(m, b)` reads bit `b` as set. -/
theorem get_bit_ne_zero (m : Nat) (b : Int) :
    get_bit m b ≠ 0 ↔ m.testBit b.toNat = true := by
  rw [get_bit_eq]; split <;> simp_all

/-- Bits of a mask after `set_bit`. -/
theorem testBit_set_bit (m : Nat) (b : Int) (h : b < 64) (j : Nat) :
    (set_bit m b).testBit j = (m.testBit j || decide (b.toNat = j)) := by
  unfold set_bit
  rw [bit_mask_eq b h, Nat.testBit_or, Nat.testBit_two_pow]

/-- Bits of a mask after `clear_bit`: the complement is taken on 64 bits. -/
theorem testBit_clear_bit (m : Nat) (b : Int) (h : b < 64) (j : Nat) :
    (clear_bit m b).testBit j = (m.testBit j && (decide (j < 64) && !decide (b.toNat = j))) := by
  unfold clear_bit not64
  rw [bit_mask_eq b h, Nat.testBit_and, Nat.testBit_xor, Nat.testBit_two_pow_sub_one,
    Nat.testBit_two_pow]
  have hb : b.toNat < 64 := by omega
  by_cases h1 : j < 64 <;> by_cases h2 : b.toNat = j <;> simp [h1, h2]
  omega

/-- The C test `m & ((Bitboard)1 << b)` reads bit `b` of `m`. -/
theorem and_bit_mask_ne_zero (m : Nat) (b : Int) (h : b < 64) :
    m &&& bit_mask b ≠ 0 ↔ m.testBit b.toNat = true := by
  rw [bit_mask_eq b h]
  constructor
  · intro hne
    by_contra hb
    apply hne
    apply Nat.eq_of_testBit_eq
    intro i
    rw [Nat.testBit_and, Nat.testBit_two_pow, Nat.zero_testBit]
    by_cases hi : b.toNat = i
    · subst hi; simp_all
    · simp [hi]
  · intro hb hz
    have := congrArg (fun x => x.testBit b.toNat) hz
    simp [hb, Nat.testBit_two_pow] at this


/-! ## Move and capture generation as sets of targets -/

/-- Three nested tests with a common fall-through are one test of a conjunction. -/
theorem ite_nest {α : Type} (a b c : Prop) [Decidable a] [Decidable b] [Decidable c] (x y : α) :
    (if a then (if b then (if c then x else y) else y) else y) = if a ∧ b ∧ c then x else y := by
  by_cases ha : a <;> by_cases hb : b <;> by_cases hc : c <;> simp [ha, hb, hc]

/-- The loop body of `generate_moves` sets the target bit exactly under `move_ok`. -/
theorem move_step_eq (s : GameState) (idx : Int) (m : Nat) (d : Int) :
    move_step s idx m d = if move_ok s idx d then set_bit m (idx + d) else m :=
  ite_nest _ _ _ _ _

/-- The loop body of `generate_captures` sets the target bit exactly under
`capture_ok`. -/
theorem capture_step_eq (s : GameState) (idx p : Int) (m : Nat) (d : Int) :
    capture_step s idx p m d = if capture_ok s idx p d then set_bit m (idx + 2 * d) else m :=
  ite_nest _ _ _ _ _

/-- Bits of a fold that sets bit `idx + k * d` for every accepted direction. -/
theorem testBit_foldl_dirs (ok : Int → Prop) [DecidablePred ok] (tgt : Int → Int)
    (hlt : ∀ d, ok d → tgt d < 64) (t : Nat) (dirs : List Int) (acc : Nat) :
    (dirs.foldl (fun m d => if ok d then set_bit m (tgt d) else m) acc).testBit t = true ↔
      acc.testBit t = true ∨ ∃ d ∈ dirs, ok d ∧ (tgt d).toNat = t := by
  induction dirs generalizing acc with
  | nil => simp
  | cons d ds ih =>
    rw [List.foldl_cons, ih]
    by_cases hd : ok d
    · simp only [hd, if_true, testBit_set_bit _ _ (hlt d hd), Bool.or_eq_true, decide_eq_true_eq,
        List.mem_cons, exists_eq_or_imp, true_and]
      tauto
    · simp only [hd, if_false, List.mem_cons, exists_eq_or_imp, false_and, false_or]

/-- Bit `t` is in `generate_moves` exactly when an accepted direction leads to it. -/
theorem testBit_generate_moves (s : GameState) (idx p : Int) (t : Nat) :
    (generate_moves s idx p).testBit t = true ↔
      ∃ d ∈ directions p (get_bit s.kings idx), move_ok s idx d ∧ (idx + d).toNat = t := by
  unfold generate_moves
  have h : move_step s idx = fun m d => if move_ok s idx d then set_bit m (idx + d) else m := by
    funext m d; exact move_step_eq s idx m d
  simp only [h]
  rw [testBit_foldl_dirs (move_ok s idx) (fun d => idx + d) (fun d hd => hd.1.2)]
  simp

/-- Bit `t` is in `generate_captures` exactly when an accepted direction jumps to it. -/
theorem testBit_generate_captures (s : GameState) (idx p : Int) (t : Nat) :
    (generate_captures s idx p).testBit t = true ↔
      ∃ d ∈ directions p (get_bit s.kings idx), capture_ok s idx p d ∧ (idx + 2 * d).toNat = t := by
  unfold generate_captures
  have h : capture_step s idx p =
      fun m d => if capture_ok s idx p d then set_bit m (idx + 2 * d) else m := by
    funext m d; exact capture_step_eq s idx p m d
  simp only [h]
  rw [testBit_foldl_dirs (capture_ok s idx p) (fun d => idx + 2 * d) (fun d hd => hd.1.2.2.2)]
  simp

/-- The direction array only ever holds the four diagonal deltas. -/
theorem mem_directions {p k d : Int} (h : d ∈ directions p k) :
    d = -9 ∨ d = -7 ∨ d = 7 ∨ d = 9 := by
  unfold directions at h
  split_ifs at h <;> simp at h <;> omega


/-! ## Validation and the geometry of accepted targets -/

/-- The classification of `is_move_valid` in terms of the bits of the two sets. -/
theorem is_move_valid_eq (s : GameState) (f t p : Int) (ht : t < 64) :
    is_move_valid s f t p =
      if (generate_captures s f p).testBit t.toNat = true then 2
      else if has_any_captures s p = 0 ∧ (generate_moves s f p).testBit t.toNat = true then 1
      else 0 := by
  unfold is_move_valid is_move_valid_run
  simp only [and_bit_mask_ne_zero _ _ ht]
  by_cases hc : (generate_captures s f p).testBit t.toNat = true <;>
  by_cases hm : (generate_moves s f p).testBit t.toNat = true <;>
  by_cases hh : has_any_captures s p = 0 <;> simp [hc, hm, hh]

/-- C division by 8 of a non-negative `int`. -/
theorem tdiv_nat (a : Int) (h : 0 ≤ a) : a.tdiv 8 = a / 8 := Int.tdiv_eq_ediv h (by norm_num)
/-- C remainder by 8 of a non-negative `int`. -/
theorem tmod_nat (a : Int) (h : 0 ≤ a) : a.tmod 8 = a % 8 := Int.tmod_eq_emod h (by norm_num)
/-- C remainder by 2 of a non-negative `int`. -/
theorem tmod_two (a : Int) (h : 0 ≤ a) : a.tmod 2 = a % 2 := Int.tmod_eq_emod h (by norm_num)

/-- What an accepted direction of `generate_moves` says about its target. -/
theorem move_ok_target (s : GameState) (idx : Nat) (d : Int) (h : move_ok s idx d) :
    (((idx : Int) + d).toNat : Int) = idx + d ∧ ((idx : Int) + d).toNat ≤ 63 ∧
    s.player_one_pieces.testBit ((idx : Int) + d).toNat = false ∧
    s.player_two_pieces.testBit ((idx : Int) + d).toNat = false ∧
    ((((idx : Int) + d).toNat / 8 : Nat) - (idx / 8 : Nat) : Int).natAbs = 1 ∧
    ((((idx : Int) + d).toNat % 8 : Nat) - (idx % 8 : Nat) : Int).natAbs = 1 ∧
    playable ((idx : Int) + d).toNat := by
  obtain ⟨⟨h0, h1⟩, hocc, hr, hc, hp⟩ := h
  rw [get_bit_eq_zero, Nat.testBit_or, Bool.or_eq_false_iff] at hocc
  rw [tdiv_nat _ h0, tdiv_nat _ (by omega)] at hr
  rw [tmod_nat _ h0, tmod_nat _ (by omega)] at hc
  rw [tdiv_nat _ h0, tmod_nat _ h0, tmod_two _ (by omega)] at hp
  unfold playable
  refine ⟨by omega, by omega, hocc.1, hocc.2, by omega, by omega, by omega⟩

/-- What an accepted direction of `generate_captures` says about its target
and about the jumped square. -/
theorem capture_ok_target (s : GameState) (idx : Nat) (p d : Int) (h : capture_ok s idx p d) :
    (((idx : Int) + 2 * d).toNat : Int) = idx + 2 * d ∧ ((idx : Int) + 2 * d).toNat ≤ 63 ∧
    (((idx : Int) + d).toNat : Int) = idx + d ∧ ((idx : Int) + d).toNat ≤ 63 ∧
    (opponent_of s p).testBit ((idx : Int) + d).toNat = true ∧
    s.player_one_pieces.testBit ((idx : Int) + 2 * d).toNat = false ∧
    s.player_two_pieces.testBit ((idx : Int) + 2 * d).toNat = false ∧
    ((((idx : Int) + 2 * d).toNat / 8 : Nat) - (idx / 8 : Nat) : Int).natAbs = 2 ∧
    ((((idx : Int) + 2 * d).toNat % 8 : Nat) - (idx % 8 : Nat) : Int).natAbs = 2 ∧
    playable ((idx : Int) + 2 * d).toNat := by
  obtain ⟨⟨hm0, hm1, h0, h1⟩, ⟨hopp, hocc⟩, hr, hc, hp⟩ := h
  rw [get_bit_eq_zero, Nat.testBit_or, Bool.or_eq_false_iff] at hocc
  rw [get_bit_ne_zero] at hopp
  rw [tdiv_nat _ h0, tdiv_nat _ (by omega)] at hr
  rw [tmod_nat _ h0, tmod_nat _ (by omega)] at hc
  rw [tdiv_nat _ h0, tmod_nat _ h0, tmod_two _ (by omega)] at hp
  unfold playable
  refine ⟨by omega, by omega, by omega, by omega, hopp, hocc.1, hocc.2, by omega, by omega,
    by omega⟩

/-! ## The fields of the state after `make_move` -/

/-- The mover's mask after `make_move`. -/
theorem make_move_pieces (s : GameState) (f t p : Int) :
    pieces_of (make_move s f t p) p = set_bit (clear_bit (pieces_of s p) f) t := by
  unfold make_move pieces_of
  by_cases hp : p = 1 <;> simp only [hp, if_true, if_false] <;> split_ifs <;> rfl

/-- The opponent's mask after `make_move`. -/
theorem make_move_opponent (s : GameState) (f t p : Int) :
    opponent_of (make_move s f t p) p =
      if is_move_valid s f t p = 2 then clear_bit (opponent_of s p) (captured_idx f t)
      else opponent_of s p := by
  unfold make_move opponent_of captured_idx
  by_cases hp : p = 1 <;> simp only [hp, if_true, if_false] <;> split_ifs <;> rfl

/-- The king mask after `make_move`. -/
theorem make_move_kings (s : GameState) (f t p : Int) :
    (make_move s f t p).kings =
      if is_move_valid s f t p = 2 then clear_bit (kings_moved s f t p) (captured_idx f t)
      else kings_moved s f t p := by
  unfold make_move kings_moved captured_idx back_rank
  by_cases hp : p = 1 <;> simp only [hp, if_true, if_false] <;> split_ifs <;> rfl


/-! ## Valid moves and the bits of the state after `make_move` -/

/-- Consequences of a `Capture` classification. -/
theorem capture_facts (s : GameState) (p : Int) (f t : Nat) (ht : t ≤ 63)
    (h : is_move_valid s f t p = 2) :
    ∃ mid : Nat, (mid : Int) = captured_idx f t ∧ mid ≤ 63 ∧ mid ≠ t ∧ mid ≠ f ∧ t ≠ f ∧
      (opponent_of s p).testBit mid = true ∧
      s.player_one_pieces.testBit t = false ∧ s.player_two_pieces.testBit t = false ∧
      playable t := by
  rw [is_move_valid_eq s f t p (by omega), Int.toNat_ofNat] at h
  have hc : (generate_captures s f p).testBit t = true := by
    by_contra hc
    rw [if_neg hc] at h
    split_ifs at h <;> omega
  rw [testBit_generate_captures] at hc
  obtain ⟨d, hd, hok, ht'⟩ := hc
  obtain ⟨e1, _, e2, h2, h3, h4, h5, _, _, h8⟩ := capture_ok_target s f p d hok
  rw [ht'] at e1 h4 h5 h8
  have hcap : captured_idx f t = (f : Int) + d := by
    unfold captured_idx
    rw [e1, show (f : Int) + 2 * d - f = d * 2 by ring, Int.mul_tdiv_cancel d (by norm_num)]
  refine ⟨((f : Int) + d).toNat, by rw [e2, hcap], h2, ?_, ?_, ?_, h3, h4, h5, h8⟩ <;>
    rcases mem_directions hd with rfl | rfl | rfl | rfl <;> omega

/-- Consequences of a `Simple` classification. -/
theorem simple_facts (s : GameState) (p : Int) (f t : Nat) (ht : t ≤ 63)
    (h : is_move_valid s f t p = 1) :
    t ≠ f ∧ s.player_one_pieces.testBit t = false ∧ s.player_two_pieces.testBit t = false ∧
      playable t ∧ ∃ d ∈ directions p (get_bit s.kings f), (t : Int) = f + d := by
  rw [is_move_valid_eq s f t p (by omega), Int.toNat_ofNat] at h
  have hm : (generate_moves s f p).testBit t = true := by
    split_ifs at h with h1 h2
    · omega
    · exact h2.2
    · omega
  rw [testBit_generate_moves] at hm
  obtain ⟨d, hd, hok, ht'⟩ := hm
  obtain ⟨e1, _, h2, h3, _, _, h6⟩ := move_ok_target s f d hok
  rw [ht'] at e1 h2 h3 h6
  refine ⟨?_, h2, h3, h6, d, hd, e1⟩
  rcases mem_directions hd with rfl | rfl | rfl | rfl <;> omega

/-- Consequences shared by the two valid classifications. -/
theorem valid_facts (s : GameState) (p : Int) (f t : Nat) (ht : t ≤ 63)
    (h : is_move_valid s f t p = 1 ∨ is_move_valid s f t p = 2) :
    t ≠ f ∧ s.player_one_pieces.testBit t = false ∧ s.player_two_pieces.testBit t = false ∧
      playable t := by
  rcases h with h | h
  · obtain ⟨h1, h2, h3, h4, _⟩ := simple_facts s p f t ht h
    exact ⟨h1, h2, h3, h4⟩
  · obtain ⟨_, _, _, _, _, h1, _, h2, h3, h4⟩ := capture_facts s p f t ht h
    exact ⟨h1, h2, h3, h4⟩

/-- Two masks have an empty intersection when no bit is set in both. -/
theorem and_eq_zero_iff (a b : Nat) :
    a &&& b = 0 ↔ ∀ i, ¬ (a.testBit i = true ∧ b.testBit i = true) := by
  constructor
  · intro h i hi
    have := congrArg (fun x => x.testBit i) h
    simp [hi.1, hi.2] at this
  · intro h
    apply Nat.eq_of_testBit_eq
    intro i
    rw [Nat.testBit_and, Nat.zero_testBit]
    have := h i
    cases ha : a.testBit i <;> cases hb : b.testBit i <;> simp_all

/-- Bits of the mover's mask after `make_move`. -/
theorem testBit_make_move_pieces (s : GameState) (p : Int) (f t : Nat) (hf : f ≤ 63)
    (ht : t ≤ 63) (i : Nat) :
    (pieces_of (make_move s f t p) p).testBit i =
      (((pieces_of s p).testBit i && (decide (i < 64) && !decide (f = i))) || decide (t = i)) := by
  rw [make_move_pieces, testBit_set_bit _ _ (by omega), testBit_clear_bit _ _ (by omega)]
  simp only [Int.toNat_ofNat]

/-- The opponent's mask only loses bits in `make_move`. -/
theorem testBit_make_move_opponent_le (s : GameState) (p : Int) (f t : Nat)
    (ht : t ≤ 63) (i : Nat) (h : (opponent_of (make_move s f t p) p).testBit i = true) :
    (opponent_of s p).testBit i = true := by
  rw [make_move_opponent] at h
  split_ifs at h with hv
  · obtain ⟨mid, hmid, hm, _⟩ := capture_facts s p f t ht hv
    rw [← hmid, testBit_clear_bit _ _ (by omega)] at h
    simp only [Bool.and_eq_true] at h
    exact h.1
  · exact h

/-- The king mask only gains the bit of the destination in `make_move`. -/
theorem testBit_make_move_kings_le (s : GameState) (p : Int) (f t : Nat) (hf : f ≤ 63)
    (ht : t ≤ 63) (i : Nat) (h : (make_move s f t p).kings.testBit i = true) :
    s.kings.testBit i = true ∨ i = t := by
  have hk : (kings_moved s f t p).testBit i = true → s.kings.testBit i = true ∨ i = t := by
    unfold kings_moved
    intro hk
    split_ifs at hk
    · rw [testBit_set_bit _ _ (by omega)] at hk
      simp only [Int.toNat_ofNat, Bool.or_eq_true, decide_eq_true_eq] at hk
      tauto
    · rw [testBit_set_bit _ _ (by omega), testBit_clear_bit _ _ (by omega)] at hk
      simp only [Int.toNat_ofNat, Bool.or_eq_true, Bool.and_eq_true, decide_eq_true_eq] at hk
      tauto
    · rw [testBit_clear_bit _ _ (by omega)] at hk
      simp only [Bool.and_eq_true] at hk
      exact Or.inl hk.1
  rw [make_move_kings] at h
  split_ifs at h with hv
  · obtain ⟨mid, hmid, hm, _⟩ := capture_facts s p f t ht hv
    rw [← hmid, testBit_clear_bit _ _ (by omega)] at h
    simp only [Bool.and_eq_true] at h
    exact hk h.1
  · exact hk h


/-! ## The invariants, seen from the mover -/

/-- Disjointness, stated on the mover's and the opponent's masks. -/
theorem disjoint_inv_iff (s : GameState) (p : Int) :
    disjoint_inv s ↔
      ∀ i, ¬ ((pieces_of s p).testBit i = true ∧ (opponent_of s p).testBit i = true) := by
  unfold disjoint_inv pieces_of opponent_of
  rw [and_eq_zero_iff]
  by_cases hp : p = 1
  · simp only [hp, if_true]
  · simp only [hp, if_false]
    exact forall_congr' fun i => not_congr and_comm

/-- The playable-squares invariant, stated on the mover's and the opponent's masks. -/
theorem playable_inv_iff (s : GameState) (p : Int) :
    playable_inv s ↔
      ∀ i, ((pieces_of s p).testBit i = true ∨ (opponent_of s p).testBit i = true ∨
        s.kings.testBit i = true) → playable i := by
  unfold playable_inv pieces_of opponent_of
  by_cases hp : p = 1
  · simp only [hp, if_true]
  · simp only [hp, if_false]
    exact forall_congr' fun i => imp_congr_left (by tauto)

/-- A square empty in both players' masks is empty for mover and opponent. -/
theorem occupied_iff (s : GameState) (p : Int) (i : Nat) :
    (s.player_one_pieces.testBit i = false ∧ s.player_two_pieces.testBit i = false) ↔
      ((pieces_of s p).testBit i = false ∧ (opponent_of s p).testBit i = false) := by
  unfold pieces_of opponent_of
  by_cases hp : p = 1
  · simp only [hp, if_true]
  · simp only [hp, if_false]
    exact and_comm

/-- A property of all set bits of a 64-bit mask can be checked on `0..63`. -/
theorem forall_testBit_of_lt (m : Nat) (hm : m < 2 ^ 64) (P : Nat → Prop)
    (h : ∀ i < 64, m.testBit i = true → P i) : ∀ i, m.testBit i = true → P i := by
  intro i hi
  by_cases h64 : i < 64
  · exact h i h64 hi
  · have : m < 2 ^ i := lt_of_lt_of_le hm (Nat.pow_le_pow_right (by norm_num) (by omega))
    rw [Nat.testBit_lt_two_pow this] at hi
    exact absurd hi (by simp)

/-! ## Checking invariants on concrete positions -/

/-- A 64-bit mask has no bit set from index 64 on. -/
theorem wf_testBit_ge (m : Nat) (hm : m < 2 ^ 64) (i : Nat) (hi : 64 ≤ i) :
    m.testBit i = false :=
  Nat.testBit_lt_two_pow (lt_of_lt_of_le hm (Nat.pow_le_pow_right (by norm_num) hi))

/-- On a state of 64-bit masks, `kings_inv` can be checked on squares `0..63`. -/
theorem kings_inv_of_check (s : GameState) (hw : s.wf)
    (h : ∀ i < 64, s.kings.testBit i = true →
      (s.player_one_pieces ||| s.player_two_pieces).testBit i = true) : kings_inv s :=
  forall_testBit_of_lt s.kings hw.2.2 _ h

/-- On a state of 64-bit masks, `playable_inv` can be checked on squares `0..63`. -/
theorem playable_inv_of_check (s : GameState) (hw : s.wf)
    (h : ∀ i < 64, (s.player_one_pieces.testBit i = true ∨ s.player_two_pieces.testBit i = true ∨
      s.kings.testBit i = true) → playable i) : playable_inv s := by
  intro i hi
  by_cases h64 : i < 64
  · exact h i h64 hi
  · rw [wf_testBit_ge _ hw.1 i (by omega), wf_testBit_ge _ hw.2.1 i (by omega),
      wf_testBit_ge _ hw.2.2 i (by omega)] at hi
    simp at hi

/-- The layout written by `initialize_game`, as hexadecimal masks. -/
theorem initialize_game_eq (s : GameState) :
    initialize_game s =
      { player_one_pieces := 0x55AA550000000000, player_two_pieces := 0xAA55AA, kings := 0 } := by
  rfl


/-! ## The king mask outside the back-rank branch -/

/-- Bits of the opponent's mask after `make_move`. -/
theorem testBit_make_move_opponent (s : GameState) (p : Int) (f t : Nat) (ht : t ≤ 63)
    (i : Nat) :
    (opponent_of (make_move s f t p) p).testBit i =
      ((opponent_of s p).testBit i &&
        (!decide (is_move_valid s f t p = 2) ||
          (decide (i < 64) && !decide ((captured_idx f t).toNat = i)))) := by
  rw [make_move_opponent]
  split_ifs with hv
  · obtain ⟨mid, hmid, hm, _⟩ := capture_facts s p f t ht hv
    rw [← hmid, testBit_clear_bit _ _ (by omega)]
    simp [hv]
  · simp [hv]

/-- Bits of the king mask after the king update of `make_move`, away from the
destination square. -/
theorem testBit_kings_moved (s : GameState) (p : Int) (f t : Nat) (hf : f ≤ 63) (ht : t ≤ 63)
    (i : Nat) (hi : i ≠ t) :
    (kings_moved s f t p).testBit i =
      (s.kings.testBit i &&
        (decide (back_rank p t) ||
          (decide (i < 64) && !(s.kings.testBit f && decide (f = i))))) := by
  have hti : ¬ t = i := fun h => hi h.symm
  unfold kings_moved
  split_ifs with hb hkf
  · rw [testBit_set_bit _ _ (by omega)]
    simp [hb, hti]
  · rw [get_bit_ne_zero, Int.toNat_ofNat] at hkf
    rw [testBit_set_bit _ _ (by omega), testBit_clear_bit _ _ (by omega)]
    simp [hb, hkf, hti]
  · rw [get_bit_ne_zero, Int.toNat_ofNat] at hkf
    rw [testBit_clear_bit _ _ (by omega)]
    simp [hb, hkf, hti]

/-- Bits of the king mask after `make_move`, away from the destination square. -/
theorem testBit_make_move_kings (s : GameState) (p : Int) (f t : Nat) (hf : f ≤ 63)
    (ht : t ≤ 63) (i : Nat) (hi : i ≠ t) :
    (make_move s f t p).kings.testBit i =
      ((s.kings.testBit i &&
        (decide (back_rank p t) ||
          (decide (i < 64) && !(s.kings.testBit f && decide (f = i))))) &&
        (!decide (is_move_valid s f t p = 2) ||
          (decide (i < 64) && !decide ((captured_idx f t).toNat = i)))) := by
  rw [make_move_kings]
  split_ifs with hv
  · obtain ⟨mid, hmid, hm, _⟩ := capture_facts s p f t ht hv
    rw [← hmid, testBit_clear_bit _ _ (by omega), testBit_kings_moved s p f t hf ht i hi]
    simp [hv]
  · rw [testBit_kings_moved s p f t hf ht i hi]
    simp [hv]

/-- A square of `player_one_pieces | player_two_pieces` holds a piece of the mover
or of the opponent. -/
theorem occupied_or_iff (s : GameState) (p : Int) (i : Nat) :
    (s.player_one_pieces ||| s.player_two_pieces).testBit i = true ↔
      ((pieces_of s p).testBit i = true ∨ (opponent_of s p).testBit i = true) := by
  rw [Nat.testBit_or, Bool.or_eq_true]
  unfold pieces_of opponent_of
  by_cases hp : p = 1
  · simp only [hp, if_true]
  · simp only [hp, if_false]
    exact or_comm

/-- The subset invariant of the king mask is preserved by every valid move
except that of a king onto its owner's back rank. -/
theorem make_move_preserves_kings_inv_of_not_king_to_back_rank (s : GameState) (hw : s.wf)
    (hk : kings_inv s) (p : Int) (from_idx to_idx : Nat) (hf : from_idx ≤ 63)
    (ht : to_idx ≤ 63)
    (hns : ¬ (back_rank p to_idx ∧ s.kings.testBit from_idx = true)) :
    kings_inv (make_move s from_idx to_idx p) := by
  intro i hi
  rw [occupied_or_iff _ p, testBit_make_move_pieces s p from_idx to_idx hf ht,
    testBit_make_move_opponent s p from_idx to_idx ht]
  by_cases hit : i = to_idx
  · left; simp [hit]
  · rw [testBit_make_move_kings s p from_idx to_idx hf ht i hit] at hi
    simp only [Bool.and_eq_true, Bool.or_eq_true, decide_eq_true_eq, Bool.not_eq_true',
      decide_eq_false_iff_not, Bool.and_eq_false_imp] at hi
    obtain ⟨⟨hki, hmv⟩, hcap⟩ := hi
    have h64 : i < 64 := by
      by_contra h
      rw [wf_testBit_ge _ hw.2.2 i (by omega)] at hki
      exact absurd hki (by simp)
    have hfi : ¬ from_idx = i := by
      rintro rfl
      rcases hmv with hb | ⟨_, h⟩
      · exact hns ⟨hb, hki⟩
      · exact h hki rfl
    rcases (occupied_or_iff s p i).1 (hk i hki) with hp | ho
    · left; simp [hp, h64, hfi]
    · right
      simp only [ho, Bool.true_and, Bool.or_eq_true, Bool.and_eq_true, decide_eq_true_eq,
        Bool.not_eq_true', decide_eq_false_iff_not]
      rcases hcap with h | h
      · exact Or.inl h
      · exact Or.inr h


/-! ## A simple move and its inverse -/

/-- A `Simple` move changes the row by one. -/
theorem simple_rows (s : GameState) (p : Int) (f t : Nat) (ht : t ≤ 63)
    (h : is_move_valid s f t p = 1) :
    (((t / 8 : Nat) : Int) - ((f / 8 : Nat) : Int)).natAbs = 1 := by
  rw [is_move_valid_eq s f t p (by omega), Int.toNat_ofNat] at h
  have hm : (generate_moves s f p).testBit t = true := by
    split_ifs at h with h1 h2
    · omega
    · exact h2.2
    · omega
  rw [testBit_generate_moves] at hm
  obtain ⟨d, _, hok, rfl⟩ := hm
  exact (move_ok_target s f d hok).2.2.2.2.1

/-- A `Capture` move changes the row by two. -/
theorem capture_rows (s : GameState) (p : Int) (f t : Nat) (ht : t ≤ 63)
    (h : is_move_valid s f t p = 2) :
    (((t / 8 : Nat) : Int) - ((f / 8 : Nat) : Int)).natAbs = 2 := by
  rw [is_move_valid_eq s f t p (by omega), Int.toNat_ofNat] at h
  have hc : (generate_captures s f p).testBit t = true := by
    by_contra hc
    rw [if_neg hc] at h
    split_ifs at h <;> omega
  rw [testBit_generate_captures] at hc
  obtain ⟨d, _, hok, rfl⟩ := hc
  exact (capture_ok_target s f p d hok).2.2.2.2.2.2.2.1

/-- A state is determined by the mover's mask, the opponent's mask and the
king mask. -/
theorem state_ext (a b : GameState) (p : Int) (h1 : pieces_of a p = pieces_of b p)
    (h2 : opponent_of a p = opponent_of b p) (h3 : a.kings = b.kings) : a = b := by
  unfold pieces_of at h1
  unfold opponent_of at h2
  cases a; cases b
  by_cases hp : p = 1 <;> simp only [hp, if_true, if_false] at h1 h2 <;> simp_all

/-- Moving a piece of a 64-bit mask to an empty square and back restores the mask. -/
theorem move_back (m : Nat) (hm : m < 2 ^ 64) (f t : Nat) (hf : f ≤ 63) (ht : t ≤ 63)
    (hmf : m.testBit f = true) (hmt : m.testBit t = false) :
    set_bit (clear_bit (set_bit (clear_bit m f) t) t) f = m := by
  apply Nat.eq_of_testBit_eq
  intro i
  rw [testBit_set_bit _ _ (by omega), testBit_clear_bit _ _ (by omega),
    testBit_set_bit _ _ (by omega), testBit_clear_bit _ _ (by omega)]
  simp only [Int.toNat_ofNat]
  by_cases h64 : i < 64
  · by_cases hfi : f = i
    · subst hfi; simp [hmf]
    · by_cases hti : t = i
      · subst hti; simp [hmt, hfi]
      · simp [h64, hfi, hti]
  · have hfi : ¬ f = i := by omega
    simp [wf_testBit_ge m hm i (by omega), h64, hfi]

/-- Round trip of a simple move whose origin is not on the mover's back rank:
`make_move` from `from_idx` to `to_idx` followed by `make_move` back restores
the state. -/
theorem make_move_round_trip_off_back_rank (s : GameState) (hw : s.wf) (hk : kings_inv s)
    (p : Int) (from_idx to_idx : Nat) (hf : from_idx ≤ 63)
    (ht : to_idx ≤ 63) (hown : (pieces_of s p).testBit from_idx = true)
    (hv : is_move_valid s from_idx to_idx p = 1)
    (hnt : ¬ back_rank p to_idx) (hnf : ¬ back_rank p from_idx) :
    make_move (make_move s from_idx to_idx p) to_idx from_idx p = s := by
  obtain ⟨htf, ht1, ht2, _, _⟩ := simple_facts s p from_idx to_idx ht hv
  have hrow := simple_rows s p from_idx to_idx ht hv
  have hv1 : ¬ is_move_valid s from_idx to_idx p = 2 := by omega
  have hv2 : ¬ is_move_valid (make_move s from_idx to_idx p) to_idx from_idx p = 2 := by
    intro h
    have := capture_rows _ p to_idx from_idx hf h
    omega
  have hpt := ((occupied_iff s p to_idx).1 ⟨ht1, ht2⟩).1
  have hkt : s.kings.testBit to_idx = false := by
    by_contra h
    have := hk to_idx (by simpa using h)
    rw [Nat.testBit_or, ht1, ht2] at this
    exact absurd this (by simp)
  have hpw : pieces_of s p < 2 ^ 64 := by
    unfold pieces_of; split_ifs
    · exact hw.1
    · exact hw.2.1
  apply state_ext _ _ p
  · rw [make_move_pieces, make_move_pieces]
    exact move_back _ hpw from_idx to_idx hf ht hown hpt
  · rw [make_move_opponent, if_neg hv2, make_move_opponent, if_neg hv1]
  · rw [make_move_kings, if_neg hv2]
    have hk1 : (make_move s from_idx to_idx p).kings = kings_moved s from_idx to_idx p := by
      rw [make_move_kings, if_neg hv1]
    unfold kings_moved
    rw [if_neg hnf, hk1]
    unfold kings_moved
    rw [if_neg hnt]
    by_cases hkf : s.kings.testBit from_idx = true
    · have h1 : get_bit s.kings from_idx ≠ 0 := by rw [get_bit_ne_zero]; simpa using hkf
      rw [if_pos h1]
      have h2 : get_bit (set_bit (clear_bit s.kings from_idx) to_idx) to_idx ≠ 0 := by
        rw [get_bit_ne_zero, testBit_set_bit _ _ (by omega)]; simp
      rw [if_pos h2]
      exact move_back _ hw.2.2 from_idx to_idx hf ht hkf hkt
    · have h1 : ¬ get_bit s.kings from_idx ≠ 0 := by rw [get_bit_ne_zero]; simpa using hkf
      rw [if_neg h1]
      have h2 : ¬ get_bit (clear_bit s.kings to_idx) to_idx ≠ 0 := by
        rw [get_bit_ne_zero, testBit_clear_bit _ _ (by omega)]; simp
      rw [if_neg h2]
      apply Nat.eq_of_testBit_eq
      intro i
      rw [testBit_clear_bit _ _ (by omega), testBit_clear_bit _ _ (by omega)]
      simp only [Int.toNat_ofNat]
      by_cases h64 : i < 64
      · by_cases hfi : from_idx = i
        · subst hfi; simpa using hkf
        · by_cases hti : to_idx = i
          · subst hti; simp [hkt]
          · simp [h64, hfi, hti]
      · simp [wf_testBit_ge _ hw.2.2 i (by omega)]


/-- Bits of a mask after `toggle_bit`. -/
theorem testBit_toggle_bit (m : Nat) (b : Int) (h : b < 64) (j : Nat) :
    (toggle_bit m b).testBit j = (m.testBit j ^^ decide (b.toNat = j)) := by
  unfold toggle_bit
  rw [bit_mask_eq b h, Nat.testBit_xor, Nat.testBit_two_pow]

/-! ## Completeness of the generators -/

/-- For players 1 and 2 the direction array of the code is the direction set of
the spec. -/
theorem directions_eq_spec (s : GameState) (p : Int) (hp : p = 1 ∨ p = 2) (idx : Int) :
    directions p (get_bit s.kings idx) = spec_directions p (s.kings.testBit idx.toNat) := by
  unfold directions spec_directions
  rw [get_bit_eq]
  by_cases hk : s.kings.testBit idx.toNat = true <;> rcases hp with rfl | rfl <;> simp [hk]

/-- The tests of `generate_moves` on direction `d`, read on the target square. -/
theorem move_ok_iff (s : GameState) (idx : Nat) (d : Int) (t : Nat) (ht : (t : Int) = idx + d) :
    move_ok s idx d ↔
      (t ≤ 63 ∧ s.player_one_pieces.testBit t = false ∧ s.player_two_pieces.testBit t = false ∧
        (((t / 8 : Nat) : Int) - ((idx / 8 : Nat) : Int)).natAbs = 1 ∧
        (((t % 8 : Nat) : Int) - ((idx % 8 : Nat) : Int)).natAbs = 1 ∧ playable t) := by
  unfold move_ok playable
  rw [← ht, get_bit_eq_zero, Nat.testBit_or, Bool.or_eq_false_iff, Int.toNat_ofNat,
    tdiv_nat _ (by omega), tdiv_nat _ (by omega), tmod_nat _ (by omega), tmod_nat _ (by omega),
    tmod_two _ (by omega)]
  constructor
  · rintro ⟨h1, h2, h3, h4, h5⟩
    exact ⟨by omega, h2.1, h2.2, by omega, by omega, by omega⟩
  · rintro ⟨h1, h2, h3, h4, h5, h6⟩
    exact ⟨by omega, ⟨h2, h3⟩, by omega, by omega, by omega⟩

/-- The tests of `generate_captures` on direction `d`, read on the jumped square
and on the target square. -/
theorem capture_ok_iff (s : GameState) (idx : Nat) (p d : Int) (t mid : Nat)
    (ht : (t : Int) = idx + 2 * d) (hmid : (mid : Int) = idx + d) :
    capture_ok s idx p d ↔
      (t ≤ 63 ∧ mid ≤ 63 ∧ (opponent_of s p).testBit mid = true ∧
        s.player_one_pieces.testBit t = false ∧ s.player_two_pieces.testBit t = false ∧
        (((t / 8 : Nat) : Int) - ((idx / 8 : Nat) : Int)).natAbs = 2 ∧
        (((t % 8 : Nat) : Int) - ((idx % 8 : Nat) : Int)).natAbs = 2 ∧ playable t) := by
  unfold capture_ok playable
  rw [← ht, ← hmid, get_bit_eq_zero, get_bit_ne_zero, Nat.testBit_or, Bool.or_eq_false_iff,
    Int.toNat_ofNat, Int.toNat_ofNat,
    tdiv_nat _ (by omega), tdiv_nat _ (by omega), tmod_nat _ (by omega), tmod_nat _ (by omega),
    tmod_two _ (by omega)]
  constructor
  · rintro ⟨h1, ⟨h2, h3⟩, h4, h5, h6⟩
    exact ⟨by omega, by omega, h2, h3.1, h3.2, by omega, by omega, by omega⟩
  · rintro ⟨h1, h2, h3, h4, h5, h6, h7, h8⟩
    exact ⟨by omega, ⟨h3, h4, h5⟩, by omega, by omega, by omega⟩

/-! ## The king update off the back rank -/

/-- The test of the first branch of the king update, on a square `0..63`. -/
theorem back_rank_iff (p : Int) (t : Nat) :
    back_rank p t ↔ ((p = 1 ∧ t / 8 = 0) ∨ (p = 2 ∧ t / 8 = 7)) := by
  unfold back_rank
  rw [tdiv_nat _ (by omega)]
  omega

/-- Off the back rank, the king update leaves at the destination the king bit
the origin had. -/
theorem testBit_kings_moved_to (s : GameState) (p : Int) (f t : Nat)
    (ht : t ≤ 63) (hnb : ¬ back_rank p t) :
    (kings_moved s f t p).testBit t = s.kings.testBit f := by
  unfold kings_moved
  rw [if_neg hnb]
  split_ifs with hkf
  · rw [get_bit_ne_zero, Int.toNat_ofNat] at hkf
    rw [testBit_set_bit _ _ (by omega), hkf]
    simp
  · rw [get_bit_ne_zero, Int.toNat_ofNat] at hkf
    rw [testBit_clear_bit _ _ (by omega)]
    simp only [Int.toNat_ofNat, decide_True, Bool.not_true, Bool.and_false]
    exact (Bool.eq_false_iff.2 hkf).symm

/-! ## Counting pieces -/

/-- Two predicates that differ only at one element of a duplicate-free list,
where the first holds and the second does not, differ by one in their count. -/
theorem countP_differ_at (l : List Nat) (hl : l.Nodup) (i : Nat) (hi : i ∈ l)
    (P Q : Nat → Bool) (hPQ : ∀ j ∈ l, j ≠ i → P j = Q j) (hP : P i = true)
    (hQ : Q i = false) : l.countP P = l.countP Q + 1 := by
  induction l with
  | nil => simp at hi
  | cons a l ih =>
    rw [List.nodup_cons] at hl
    by_cases hai : a = i
    · subst hai
      have hrest : l.countP P = l.countP Q := by
        apply List.countP_congr
        intro j hj
        have hne : j ≠ a := fun h => hl.1 (h ▸ hj)
        rw [hPQ j (List.mem_cons_of_mem _ hj) hne]
      rw [List.countP_cons_of_pos _ _ hP, List.countP_cons_of_neg _ _ (by simp [hQ]), hrest]
    · have hi' : i ∈ l := by
        rcases List.mem_cons.1 hi with h | h
        · exact absurd h.symm hai
        · exact h
      have ih' := ih hl.2 hi' (fun j hj hne => hPQ j (List.mem_cons_of_mem _ hj) hne)
      have ha : P a = Q a := hPQ a (List.mem_cons_self _ _) hai
      by_cases hPa : P a = true
      · rw [List.countP_cons_of_pos _ _ hPa, List.countP_cons_of_pos _ _ (ha ▸ hPa), ih']
      · rw [List.countP_cons_of_neg _ _ hPa, List.countP_cons_of_neg _ _ (ha ▸ hPa), ih']

/-- Masks with the same bits on `0..63` have the same `popcount`. -/
theorem popcount_congr (m n : Nat) (h : ∀ j < 64, m.testBit j = n.testBit j) :
    popcount m = popcount n := by
  unfold popcount
  apply List.countP_congr
  intro j hj
  rw [h j (List.mem_range.1 hj)]

/-- Clearing a set bit lowers `popcount` by one. -/
theorem popcount_clear_bit (m : Nat) (i : Nat) (hi : i ≤ 63) (h : m.testBit i = true) :
    popcount (clear_bit m i) + 1 = popcount m := by
  unfold popcount
  symm
  apply countP_differ_at _ (List.nodup_range 64) i (List.mem_range.2 (by omega))
  · intro j hj hne
    have h64 : j < 64 := List.mem_range.1 hj
    have : ¬ i = j := fun e => hne e.symm
    rw [testBit_clear_bit _ _ (by omega)]
    simp [h64, this]
  · exact h
  · rw [testBit_clear_bit _ _ (by omega)]
    simp

/-- Setting a clear bit raises `popcount` by one. -/
theorem popcount_set_bit (m : Nat) (i : Nat) (hi : i ≤ 63) (h : m.testBit i = false) :
    popcount (set_bit m i) = popcount m + 1 := by
  unfold popcount
  apply countP_differ_at _ (List.nodup_range 64) i (List.mem_range.2 (by omega))
  · intro j hj hne
    have : ¬ i = j := fun e => hne e.symm
    rw [testBit_set_bit _ _ (by omega)]
    simp [this]
  · rw [testBit_set_bit _ _ (by omega)]
    simp
  · exact h

/-- A 64-bit mask with no bit counted is zero. -/
theorem popcount_eq_zero_iff (m : Nat) (hm : m < 2 ^ 64) : popcount m = 0 ↔ m = 0 := by
  unfold popcount
  constructor
  · intro h
    apply Nat.eq_of_testBit_eq
    intro i
    rw [Nat.zero_testBit]
    by_cases h64 : i < 64
    · rw [List.countP_eq_zero] at h
      have := h i (List.mem_range.2 h64)
      simpa using this
    · exact wf_testBit_ge m hm i (by omega)
  · rintro rfl
    rw [List.countP_eq_zero]
    intro i _
    simp

/-- The result of `set_bit` on a 64-bit mask is a 64-bit mask. -/
theorem set_bit_lt (m : Nat) (hm : m < 2 ^ 64) (b : Int) : set_bit m b < 2 ^ 64 := by
  unfold set_bit bit_mask
  exact Nat.or_lt_two_pow hm (Nat.mod_lt _ (by norm_num))

/-- The result of `clear_bit` is a 64-bit mask. -/
theorem clear_bit_lt (m : Nat) (b : Int) : clear_bit m b < 2 ^ 64 := by
  unfold clear_bit not64
  apply lt_of_le_of_lt Nat.and_le_right
  exact Nat.xor_lt_two_pow (by norm_num) (Nat.mod_lt _ (by norm_num))

/-- The masks of a state of 64-bit masks stay 64-bit masks in `make_move`. -/
theorem make_move_wf (s : GameState) (hw : s.wf) (f t p : Int) : (make_move s f t p).wf := by
  obtain ⟨h1, h2, h3⟩ := hw
  have hk : kings_moved s f t p < 2 ^ 64 := by
    unfold kings_moved
    split_ifs
    · exact set_bit_lt _ h3 _
    · exact set_bit_lt _ (clear_bit_lt _ _) _
    · exact clear_bit_lt _ _
  have hkk : (make_move s f t p).kings < 2 ^ 64 := by
    rw [make_move_kings]
    split_ifs
    · exact clear_bit_lt _ _
    · exact hk
  have hp : pieces_of (make_move s f t p) p < 2 ^ 64 := by
    rw [make_move_pieces]
    exact set_bit_lt _ (clear_bit_lt _ _) _
  have ho : opponent_of (make_move s f t p) p < 2 ^ 64 := by
    rw [make_move_opponent]
    split_ifs
    · exact clear_bit_lt _ _
    · unfold opponent_of; split_ifs
      · exact h2
      · exact h1
  unfold pieces_of at hp
  unfold opponent_of at ho
  by_cases hp1 : p = 1
  · simp only [hp1, if_true] at hp ho
    exact ⟨by simpa [hp1] using hp, by simpa [hp1] using ho, hkk⟩
  · simp only [hp1, if_false] at hp ho
    exact ⟨ho, hp, hkk⟩

/-- A valid move of a piece the mover owns keeps the number of the mover's pieces. -/
theorem popcount_make_move_pieces (s : GameState) (p : Int) (f t : Nat) (hf : f ≤ 63)
    (ht : t ≤ 63) (hown : (pieces_of s p).testBit f = true)
    (hv : is_move_valid s f t p = 1 ∨ is_move_valid s f t p = 2) :
    popcount (pieces_of (make_move s f t p) p) = popcount (pieces_of s p) := by
  obtain ⟨htf, h1, h2, _⟩ := valid_facts s p f t ht hv
  have hpt := ((occupied_iff s p t).1 ⟨h1, h2⟩).1
  have hct : (clear_bit (pieces_of s p) f).testBit t = false := by
    rw [testBit_clear_bit _ _ (by omega), hpt]
    simp
  rw [make_move_pieces, popcount_set_bit _ t ht hct]
  exact popcount_clear_bit _ f hf hown

/-- A capture removes exactly one piece of the opponent; no other move removes any. -/
theorem popcount_make_move_opponent (s : GameState) (p : Int) (f t : Nat) (ht : t ≤ 63) :
    popcount (opponent_of (make_move s f t p) p) +
      (if is_move_valid s f t p = 2 then 1 else 0) = popcount (opponent_of s p) := by
  rw [make_move_opponent]
  split_ifs with hv
  · obtain ⟨mid, hmid, hm, _, _, _, hopp, _⟩ := capture_facts s p f t ht hv
    rw [← hmid]
    exact popcount_clear_bit _ mid hm hopp
  · rfl

/-- For players 1 and 2, the pieces of the one are the opponent's pieces of the other. -/
theorem opponent_of_other (s : GameState) (p q : Int) (hp : p = 1 ∨ p = 2) (hq : q = 1 ∨ q = 2)
    (hne : p ≠ q) : opponent_of s q = pieces_of s p := by
  unfold opponent_of pieces_of
  rcases hp with rfl | rfl <;> rcases hq with rfl | rfl <;> simp at hne ⊢

/-- Along valid turns, the pieces of the opponent of `q` decrease by the number
of captures that `q` plays. -/
theorem popcount_run_turns (q : Int) (hq : q = 1 ∨ q = 2) (turns : List (Int × Nat × Nat)) :
    ∀ s : GameState, valid_turns s turns →
      popcount (opponent_of (run_turns s turns) q) + captures_by q s turns =
        popcount (opponent_of s q) := by
  induction turns with
  | nil => intro s _; rfl
  | cons m rest ih =>
    obtain ⟨p, f, t⟩ := m
    intro s hv
    obtain ⟨hp, hf, ht, hown, hval, hrest⟩ := hv
    have h := ih (make_move s f t p) hrest
    show popcount (opponent_of (run_turns (make_move s f t p) rest) q) +
      ((if p = q ∧ is_move_valid s f t p = 2 then 1 else 0) +
        captures_by q (make_move s f t p) rest) = popcount (opponent_of s q)
    by_cases hpq : p = q
    · subst hpq
      have h1 := popcount_make_move_opponent s p f t ht
      simp only [true_and]
      omega
    · have h1 := popcount_make_move_pieces s p f t hf ht hown hval
      rw [opponent_of_other s p q hp hq hpq, ← h1,
        ← opponent_of_other (make_move s f t p) p q hp hq hpq]
      simp only [hpq, false_and, if_false]
      omega

/-- The masks stay 64-bit masks along any list of turns. -/
theorem run_turns_wf (turns : List (Int × Nat × Nat)) :
    ∀ s : GameState, s.wf → (run_turns s turns).wf := by
  induction turns with
  | nil => intro s hw; exact hw
  | cons m rest ih =>
    obtain ⟨p, f, t⟩ := m
    intro s hw
    exact ih _ (make_move_wf s hw f t p)

/-! ## The logged engine: values and index ranges -/

/-- The value of a logged fold is the fold of the values. -/
theorem foldl_log_fst (step_log : Nat × List Int → Int → Nat × List Int)
    (step : Nat → Int → Nat) (h : ∀ acc d, (step_log acc d).1 = step acc.1 d)
    (dirs : List Int) : ∀ acc, (dirs.foldl step_log acc).1 = dirs.foldl step acc.1 := by
  induction dirs with
  | nil => intro acc; rfl
  | cons d ds ih =>
    intro acc
    rw [List.foldl_cons, List.foldl_cons, ih, h]

/-- A logged fold whose steps only log indices of `0..63` only logs such indices. -/
theorem foldl_log_range (step_log : Nat × List Int → Int → Nat × List Int)
    (h : ∀ acc d, (∀ k ∈ acc.2, 0 ≤ k ∧ k ≤ 63) → ∀ k ∈ (step_log acc d).2, 0 ≤ k ∧ k ≤ 63)
    (dirs : List Int) :
    ∀ acc, (∀ k ∈ acc.2, 0 ≤ k ∧ k ≤ 63) → ∀ k ∈ (dirs.foldl step_log acc).2, 0 ≤ k ∧ k ≤ 63 := by
  induction dirs with
  | nil => intro acc hacc; exact hacc
  | cons d ds ih =>
    intro acc hacc
    rw [List.foldl_cons]
    exact ih _ (h acc d hacc)

/-- The logged loop body of `generate_moves` computes the value of the plain one. -/
theorem move_step_log_fst (s : GameState) (idx : Int) (acc : Nat × List Int) (d : Int) :
    (move_step_log s idx acc d).1 = move_step s idx acc.1 d := by
  unfold move_step_log move_step
  dsimp only
  split_ifs <;> rfl

/-- The logged loop body of `generate_captures` computes the value of the plain
one. -/
theorem capture_step_log_fst (s : GameState) (idx p : Int) (acc : Nat × List Int) (d : Int) :
    (capture_step_log s idx p acc d).1 = capture_step s idx p acc.1 d := by
  unfold capture_step_log capture_step
  dsimp only
  split_ifs <;> first | rfl | simp_all

/-- The loop body of `generate_moves` only logs indices of `0..63`. -/
theorem move_step_log_range (s : GameState) (idx : Int) (acc : Nat × List Int) (d : Int)
    (hacc : ∀ k ∈ acc.2, 0 ≤ k ∧ k ≤ 63) :
    ∀ k ∈ (move_step_log s idx acc d).2, 0 ≤ k ∧ k ≤ 63 := by
  unfold move_step_log
  intro k hk
  dsimp only at hk
  split_ifs at hk with h1 <;>
    first
    | exact hacc k hk
    | (simp only [List.mem_append, List.mem_cons, List.mem_singleton, List.not_mem_nil,
        or_false, or_self] at hk
       rcases hk with hk | rfl
       · exact hacc k hk
       · omega)

/-- The loop body of `generate_captures` only logs indices of `0..63`. -/
theorem capture_step_log_range (s : GameState) (idx p : Int) (acc : Nat × List Int) (d : Int)
    (hacc : ∀ k ∈ acc.2, 0 ≤ k ∧ k ≤ 63) :
    ∀ k ∈ (capture_step_log s idx p acc d).2, 0 ≤ k ∧ k ≤ 63 := by
  unfold capture_step_log
  intro k hk
  dsimp only at hk
  split_ifs at hk with h1 <;>
    first
    | exact hacc k hk
    | (simp only [List.mem_append, List.mem_cons, List.mem_singleton, List.not_mem_nil,
        or_false, or_self] at hk
       rcases hk with hk | rfl | rfl
       · exact hacc k hk
       · omega
       · omega)
    | (simp only [List.mem_append, List.mem_cons, List.mem_singleton, List.not_mem_nil,
        or_false, or_self] at hk
       rcases hk with hk | rfl
       · exact hacc k hk
       · omega)

/-- The logged `generate_moves` computes the value of the plain one. -/
theorem generate_moves_log_fst (s : GameState) (idx p : Int) :
    (generate_moves_log s idx p).1 = generate_moves s idx p :=
  foldl_log_fst _ _ (move_step_log_fst s idx) _ _

/-- The logged `generate_captures` computes the value of the plain one. -/
theorem generate_captures_log_fst (s : GameState) (idx p : Int) :
    (generate_captures_log s idx p).1 = generate_captures s idx p :=
  foldl_log_fst _ _ (capture_step_log_fst s idx p) _ _

/-- From a square of `0..63`, `generate_moves` only uses bit indices of `0..63`. -/
theorem generate_moves_log_range (s : GameState) (idx p : Int) (h0 : 0 ≤ idx) (h1 : idx ≤ 63) :
    ∀ k ∈ (generate_moves_log s idx p).2, 0 ≤ k ∧ k ≤ 63 := by
  apply foldl_log_range _ (move_step_log_range s idx)
  intro k hk
  simp only [List.mem_singleton] at hk
  omega

/-- From a square of `0..63`, `generate_captures` only uses bit indices of
`0..63`. -/
theorem generate_captures_log_range (s : GameState) (idx p : Int) (h0 : 0 ≤ idx)
    (h1 : idx ≤ 63) : ∀ k ∈ (generate_captures_log s idx p).2, 0 ≤ k ∧ k ≤ 63 := by
  apply foldl_log_range _ (capture_step_log_range s idx p)
  intro k hk
  simp only [List.mem_singleton] at hk
  omega

/-- The logged scan of `has_any_captures` returns 1 exactly when some scanned
square holds a piece with a non-zero capture set. -/
theorem has_any_captures_scan_fst (s : GameState) (p : Int) (l : List Nat) :
    ∀ log, (has_any_captures_scan s p l log).1 =
      if l.any (fun idx => decide (get_bit (pieces_of s p) (idx : Int) ≠ 0) &&
        decide (generate_captures s (idx : Int) p ≠ 0)) then 1 else 0 := by
  induction l with
  | nil => intro log; rfl
  | cons idx rest ih =>
    intro log
    unfold has_any_captures_scan
    dsimp only
    rw [generate_captures_log_fst, List.any_cons]
    by_cases h1 : get_bit (pieces_of s p) (idx : Int) ≠ 0
    · by_cases h2 : generate_captures s (idx : Int) p ≠ 0
      · simp [h1, h2]
      · rw [if_pos h1, if_neg h2, ih]
        simp [h1, h2]
    · rw [if_neg h1, ih]
      simp [h1]

/-- The scan of `has_any_captures` over squares of `0..63` only logs indices of
`0..63`. -/
theorem has_any_captures_scan_range (s : GameState) (p : Int) (l : List Nat)
    (hl : ∀ idx ∈ l, idx ≤ 63) :
    ∀ log : List Int, (∀ k ∈ log, 0 ≤ k ∧ k ≤ 63) →
      ∀ k ∈ (has_any_captures_scan s p l log).2, 0 ≤ k ∧ k ≤ 63 := by
  induction l with
  | nil => intro log hlog; exact hlog
  | cons idx rest ih =>
    intro log hlog
    have hidx : idx ≤ 63 := hl idx (List.mem_cons_self _ _)
    have hrest : ∀ i ∈ rest, i ≤ 63 := fun i hi => hl i (List.mem_cons_of_mem _ hi)
    have hcap := generate_captures_log_range s (idx : Int) p (by omega) (by omega)
    have h1 : ∀ k ∈ log ++ [(idx : Int)], 0 ≤ k ∧ k ≤ 63 := by
      intro k hk
      rcases List.mem_append.1 hk with hk | hk
      · exact hlog k hk
      · rw [List.mem_singleton] at hk
        omega
    have h2 : ∀ k ∈ log ++ [(idx : Int)] ++ (generate_captures_log s (idx : Int) p).2,
        0 ≤ k ∧ k ≤ 63 := by
      intro k hk
      rcases List.mem_append.1 hk with hk | hk
      · exact h1 k hk
      · exact hcap k hk
    unfold has_any_captures_scan
    dsimp only
    split_ifs
    · exact h2
    · exact ih hrest _ h2
    · exact ih hrest _ h1

/-- The logged `has_any_captures` computes the value of the plain one. -/
theorem has_any_captures_log_fst (s : GameState) (p : Int) :
    (has_any_captures_log s p).1 = has_any_captures s p :=
  has_any_captures_scan_fst s p _ _

/-- The function `has_any_captures` only uses bit indices of `0..63`. -/
theorem has_any_captures_log_range (s : GameState) (p : Int) :
    ∀ k ∈ (has_any_captures_log s p).2, 0 ≤ k ∧ k ≤ 63 := by
  apply has_any_captures_scan_range s p _ _ []
  · intro k hk; simp at hk
  · intro idx hidx
    have := List.mem_range.1 hidx
    omega

/-- The log of `is_move_valid`, whatever it returns. -/
theorem is_move_valid_log_snd (s : GameState) (f t p : Int) :
    (is_move_valid_log s f t p).2 =
      [f] ++ (generate_moves_log s f p).2 ++ (generate_captures_log s f p).2 ++ [t] ++
        (has_any_captures_log s p).2 := by
  unfold is_move_valid_log
  dsimp only
  split_ifs <;> rfl

/-- The logged `is_move_valid` computes the value of the plain one. -/
theorem is_move_valid_log_fst (s : GameState) (f t p : Int) :
    (is_move_valid_log s f t p).1 = is_move_valid s f t p := by
  unfold is_move_valid_log is_move_valid is_move_valid_run
  dsimp only
  rw [generate_moves_log_fst, generate_captures_log_fst, has_any_captures_log_fst]
  split_ifs <;> rfl

/-- On squares of `0..63`, `is_move_valid` only uses bit indices of `0..63`. -/
theorem is_move_valid_log_range (s : GameState) (p : Int) (f t : Nat) (hf : f ≤ 63)
    (ht : t ≤ 63) : ∀ k ∈ (is_move_valid_log s f t p).2, 0 ≤ k ∧ k ≤ 63 := by
  intro k hk
  rw [is_move_valid_log_snd] at hk
  simp only [List.mem_append, List.mem_singleton] at hk
  rcases hk with (((hk | hk) | hk) | hk) | hk
  · omega
  · exact generate_moves_log_range s f p (by omega) (by omega) k hk
  · exact generate_captures_log_range s f p (by omega) (by omega) k hk
  · omega
  · exact has_any_captures_log_range s p k hk

/-- The logged `make_move` computes the state of the plain one. -/
theorem make_move_log_fst (s : GameState) (f t p : Int) :
    (make_move_log s f t p).1 = make_move s f t p := by
  unfold make_move_log make_move
  dsimp only
  rw [is_move_valid_log_fst]
  split_ifs <;> rfl

/-- On squares of `0..63`, `make_move` only uses bit indices of `0..63`. -/
theorem make_move_log_range (s : GameState) (p : Int) (f t : Nat) (hf : f ≤ 63)
    (ht : t ≤ 63) : ∀ k ∈ (make_move_log s f t p).2, 0 ≤ k ∧ k ≤ 63 := by
  have hv := is_move_valid_log_range s p f t hf ht
  have hf0 : (0 : Int) ≤ f ∧ (f : Int) ≤ 63 := by omega
  have ht0 : (0 : Int) ≤ t ∧ (t : Int) ≤ 63 := by omega
  unfold make_move_log
  dsimp only
  rw [is_move_valid_log_fst]
  by_cases hcap : is_move_valid s f t p = 2
  · obtain ⟨mid, hmid, hm, _⟩ := capture_facts s p f t ht hcap
    unfold captured_idx at hmid
    have hm0 : (0 : Int) ≤ mid ∧ (mid : Int) ≤ 63 := by omega
    rw [if_pos hcap, ← hmid]
    split_ifs <;>
      simp only [List.forall_mem_append, List.forall_mem_cons, List.not_mem_nil,
        false_implies, implies_true, and_true] <;>
      and_intros <;> first | exact hv | omega
  · rw [if_neg hcap]
    split_ifs <;>
      simp only [List.forall_mem_append, List.forall_mem_cons, List.not_mem_nil,
        false_implies, implies_true, and_true] <;>
      and_intros <;> first | exact hv | omega

/-- A capture logs the index of the captured square. -/
theorem captured_idx_mem_log (s : GameState) (f t p : Int) (h : is_move_valid s f t p = 2) :
    captured_idx f t ∈ (make_move_log s f t p).2 := by
  unfold make_move_log captured_idx
  dsimp only
  rw [is_move_valid_log_fst, if_pos h]
  exact List.mem_append_right _ (List.mem_cons_self _ _)

/-! ## The queries and the memory -/

/-- The text `is_move_valid_run` prints: the one line of the must-capture branch
when `has_any_captures` is true and `to_idx` is not in the capture set of
`from_idx`, nothing otherwise; and it only prints when it returns 0. -/
theorem is_move_valid_run_output (s : GameState) (p : Int) (from_idx to_idx : Nat)
    (ht : to_idx ≤ 63) :
    (is_move_valid_run s from_idx to_idx p).2 =
      (if has_any_captures s p ≠ 0 ∧ (generate_captures s from_idx p).testBit to_idx = false
        then ["You must capture if possible.\n"] else []) ∧
    ((is_move_valid_run s from_idx to_idx p).2 ≠ [] →
      (is_move_valid_run s from_idx to_idx p).1 = 0) := by
  unfold is_move_valid_run
  simp only [and_bit_mask_ne_zero _ _ (show (to_idx : Int) < 64 by omega), Int.toNat_ofNat]
  by_cases hc : (generate_captures s from_idx p).testBit to_idx = true <;>
  by_cases hm : (generate_moves s from_idx p).testBit to_idx = true <;>
  by_cases hh : has_any_captures s p = 0 <;> simp [hc, hm, hh]

/-- In state-passing style `generate_moves` returns its value and the memory it
received. -/
theorem generate_moves_st_eq (w : World) (idx p : Int) :
    generate_moves_st w idx p = (generate_moves w.state idx p, w) := rfl

/-- In state-passing style `generate_captures` returns its value and the memory
it received. -/
theorem generate_captures_st_eq (w : World) (idx p : Int) :
    generate_captures_st w idx p = (generate_captures w.state idx p, w) := rfl

/-- The scan of `has_any_captures` hands back the memory it received, whatever
the squares scanned and wherever it stops. -/
theorem has_any_captures_scan_st_snd (p : Int) (pp : Nat) (l : List Nat) :
    ∀ w : World, (has_any_captures_scan_st p pp l w).2 = w := by
  induction l with
  | nil => intro w; rfl
  | cons idx rest ih =>
    intro w
    unfold has_any_captures_scan_st
    dsimp only
    rw [generate_captures_st_eq]
    split_ifs
    · rfl
    · exact ih w
    · exact ih w

/-- The scan of `has_any_captures` in state-passing style returns 1 exactly when
some scanned square holds a piece with a non-zero capture set. -/
theorem has_any_captures_scan_st_fst (p : Int) (pp : Nat) (l : List Nat) :
    ∀ w : World, (has_any_captures_scan_st p pp l w).1 =
      if l.any (fun idx => decide (get_bit pp (idx : Int) ≠ 0) &&
        decide (generate_captures w.state (idx : Int) p ≠ 0)) then 1 else 0 := by
  induction l with
  | nil => intro w; rfl
  | cons idx rest ih =>
    intro w
    unfold has_any_captures_scan_st
    dsimp only
    rw [generate_captures_st_eq, List.any_cons]
    by_cases h1 : get_bit pp (idx : Int) ≠ 0
    · by_cases h2 : generate_captures w.state (idx : Int) p ≠ 0
      · simp [h1, h2]
      · rw [if_pos h1, if_neg h2, ih]
        simp [h1, h2]
    · rw [if_neg h1, ih]
      simp [h1]

/-- In state-passing style `has_any_captures` returns its value and the memory it
received. -/
theorem has_any_captures_st_eq (w : World) (p : Int) :
    has_any_captures_st w p = (has_any_captures w.state p, w) := by
  unfold has_any_captures_st
  apply Prod.ext
  · exact has_any_captures_scan_st_fst p _ _ w
  · exact has_any_captures_scan_st_snd p _ _ w

/-- In state-passing style `is_move_valid` returns the classification of
`is_move_valid_run`, the state it received, and the standard output it received
followed by the text of `is_move_valid_run`. -/
theorem is_move_valid_st_eq (w : World) (f t p : Int) :
    is_move_valid_st w f t p =
      ((is_move_valid_run w.state f t p).1,
        { state := w.state, out := w.out ++ (is_move_valid_run w.state f t p).2 }) := by
  unfold is_move_valid_st is_move_valid_run
  dsimp only
  rw [generate_moves_st_eq]
  dsimp only
  rw [generate_captures_st_eq]
  dsimp only
  rw [has_any_captures_st_eq]
  dsimp only
  split_ifs <;> simp

/-! ## Claims -/

/-- Claim C1: `is_move_valid` follows the decision table. For a player in {1,2}
and squares `from_idx`, `to_idx` in 0..63 it returns 2 (Capture) exactly when bit
`to_idx` is in `generate_captures`; it returns 1 (Simple) exactly when
`has_any_captures` is false, `to_idx` is not in the capture set and is in
`generate_moves`; it returns 0 (Invalid) exactly in every other case. In
particular nothing is classified Simple while `has_any_captures` is true. -/
theorem is_move_valid_decision_table (s : GameState) (p : Int) (_hp : p = 1 ∨ p = 2)
    (from_idx to_idx : Nat) (_hf : from_idx ≤ 63) (ht : to_idx ≤ 63) :
    (is_move_valid s from_idx to_idx p = 2 ↔
      (generate_captures s from_idx p).testBit to_idx = true) ∧
    (is_move_valid s from_idx to_idx p = 1 ↔
      (has_any_captures s p = 0 ∧ (generate_captures s from_idx p).testBit to_idx = false ∧
        (generate_moves s from_idx p).testBit to_idx = true)) ∧
    (is_move_valid s from_idx to_idx p = 0 ↔
      (¬ (generate_captures s from_idx p).testBit to_idx = true ∧
        ¬ (has_any_captures s p = 0 ∧ (generate_captures s from_idx p).testBit to_idx = false ∧
          (generate_moves s from_idx p).testBit to_idx = true))) ∧
    (has_any_captures s p ≠ 0 → is_move_valid s from_idx to_idx p ≠ 1) := by
  have h := is_move_valid_eq s from_idx to_idx p (by omega)
  rw [Int.toNat_ofNat] at h
  rw [h]
  by_cases hc : (generate_captures s from_idx p).testBit to_idx = true <;>
  by_cases hm : (generate_moves s from_idx p).testBit to_idx = true <;>
  by_cases hh : has_any_captures s p = 0 <;> simp [hc, hm, hh]

/-- Claim C2: with no invariant assumed on the state, every bit `t` set in
`generate_moves s idx p` is a square of 0..63, set in neither player's mask,
exactly one row and one column away from `idx` (so never a wraparound over a
board edge), and playable. -/
theorem generate_moves_sound (s : GameState) (p : Int) (_hp : p = 1 ∨ p = 2)
    (idx : Nat) (_hi : idx ≤ 63) (t : Nat)
    (h : (generate_moves s idx p).testBit t = true) :
    t ≤ 63 ∧
    (s.player_one_pieces.testBit t = false ∧ s.player_two_pieces.testBit t = false) ∧
    ((((t / 8 : Nat) : Int) - ((idx / 8 : Nat) : Int)).natAbs = 1 ∧
      (((t % 8 : Nat) : Int) - ((idx % 8 : Nat) : Int)).natAbs = 1) ∧
    playable t := by
  rw [testBit_generate_moves] at h
  obtain ⟨d, _, hok, rfl⟩ := h
  obtain ⟨_, h1, h2, h3, h4, h5, h6⟩ := move_ok_target s idx d hok
  exact ⟨h1, ⟨h2, h3⟩, ⟨h4, h5⟩, h6⟩

/-- Claim C3: every bit `t` set in `generate_captures s idx p` is a square of
0..63, exactly two rows and two columns away from `idx`; the midpoint square,
of row `(idx/8 + t/8)/2` and column `(idx%8 + t%8)/2`, is the index
`idx + (t - idx)/2` and holds a piece of the opponent of `p`; `t` is set in
neither player's mask; and `t` is playable. -/
theorem generate_captures_sound (s : GameState) (p : Int) (_hp : p = 1 ∨ p = 2)
    (idx : Nat) (_hi : idx ≤ 63) (t : Nat)
    (h : (generate_captures s idx p).testBit t = true) :
    t ≤ 63 ∧
    ((((t / 8 : Nat) : Int) - ((idx / 8 : Nat) : Int)).natAbs = 2 ∧
      (((t % 8 : Nat) : Int) - ((idx % 8 : Nat) : Int)).natAbs = 2) ∧
    (∃ mid : Nat, mid ≤ 63 ∧ (mid : Int) = (idx : Int) + ((t : Int) - (idx : Int)).tdiv 2 ∧
      mid / 8 = (idx / 8 + t / 8) / 2 ∧ mid % 8 = (idx % 8 + t % 8) / 2 ∧
      (opponent_of s p).testBit mid = true) ∧
    (s.player_one_pieces.testBit t = false ∧ s.player_two_pieces.testBit t = false) ∧
    playable t := by
  rw [testBit_generate_captures] at h
  obtain ⟨d, hd, hok, rfl⟩ := h
  obtain ⟨e1, h1, e2, h2, h3, h4, h5, h6, h7, h8⟩ := capture_ok_target s idx p d hok
  refine ⟨h1, ⟨h6, h7⟩, ⟨((idx : Int) + d).toNat, h2, ?_, ?_, ?_, h3⟩, ⟨h4, h5⟩, h8⟩
  · rw [e1, e2]
    have : ((idx : Int) + 2 * d - idx).tdiv 2 = d := by
      rw [show (idx : Int) + 2 * d - idx = d * 2 by ring]
      exact Int.mul_tdiv_cancel d (by norm_num)
    rw [this]
  · rcases mem_directions hd with rfl | rfl | rfl | rfl <;> omega
  · rcases mem_directions hd with rfl | rfl | rfl | rfl <;> omega

/-- Claim C5: `make_move` preserves disjointness. If no square is occupied by
both players and `is_move_valid` classifies the move of player `p` from
`from_idx` to `to_idx` as Simple or Capture, then no square is occupied by both
players after `make_move`. -/
theorem make_move_preserves_disjoint (s : GameState) (hd : disjoint_inv s)
    (p : Int) (_hp : p = 1 ∨ p = 2) (from_idx to_idx : Nat) (hf : from_idx ≤ 63)
    (ht : to_idx ≤ 63)
    (hv : is_move_valid s from_idx to_idx p = 1 ∨ is_move_valid s from_idx to_idx p = 2) :
    disjoint_inv (make_move s from_idx to_idx p) := by
  rw [disjoint_inv_iff _ p] at hd ⊢
  obtain ⟨_, h1, h2, _⟩ := valid_facts s p from_idx to_idx ht hv
  have hto := ((occupied_iff s p to_idx).1 ⟨h1, h2⟩).2
  rintro i ⟨hm, ho⟩
  have ho' := testBit_make_move_opponent_le s p from_idx to_idx ht i ho
  rw [testBit_make_move_pieces s p from_idx to_idx hf ht] at hm
  simp only [Bool.or_eq_true, Bool.and_eq_true, decide_eq_true_eq] at hm
  rcases hm with hm | rfl
  · exact hd i ⟨hm.1, ho'⟩
  · rw [hto] at ho'
    exact absurd ho' (by simp)

/-- Claim C6: `make_move` preserves the playable-squares invariant. If every set
bit of the three masks is on a playable square and `is_move_valid` classifies
the move as Simple or Capture, every set bit of the three masks after
`make_move` is on a playable square. -/
theorem make_move_preserves_playable (s : GameState) (hpl : playable_inv s)
    (p : Int) (_hp : p = 1 ∨ p = 2) (from_idx to_idx : Nat) (hf : from_idx ≤ 63)
    (ht : to_idx ≤ 63)
    (hv : is_move_valid s from_idx to_idx p = 1 ∨ is_move_valid s from_idx to_idx p = 2) :
    playable_inv (make_move s from_idx to_idx p) := by
  rw [playable_inv_iff _ p] at hpl ⊢
  obtain ⟨_, _, _, hto⟩ := valid_facts s p from_idx to_idx ht hv
  rintro i (hm | ho | hk)
  · rw [testBit_make_move_pieces s p from_idx to_idx hf ht] at hm
    simp only [Bool.or_eq_true, Bool.and_eq_true, decide_eq_true_eq] at hm
    rcases hm with hm | rfl
    · exact hpl i (Or.inl hm.1)
    · exact hto
  · exact hpl i (Or.inr (Or.inl (testBit_make_move_opponent_le s p from_idx to_idx ht i ho)))
  · rcases testBit_make_move_kings_le s p from_idx to_idx hf ht i hk with hk | rfl
    · exact hpl i (Or.inr (Or.inr hk))
    · exact hto

/-- Claim C7: capture removal. On a state of 64-bit masks satisfying the three
invariants, when `from_idx` holds a piece of `p` and `is_move_valid` returns
Capture, then after `make_move` the square `mid = from + (to - from)/2`, which
lies in 0..63, is cleared in the opponent's mask and in `kings`, every other
bit of the opponent's mask is unchanged, and in the mask of `p` bit `to_idx` is
set and bit `from_idx` is cleared. -/
theorem make_move_capture_removal (s : GameState) (hw : s.wf) (_hd : disjoint_inv s)
    (_hk : kings_inv s) (_hpl : playable_inv s) (p : Int) (_hp : p = 1 ∨ p = 2)
    (from_idx to_idx : Nat) (hf : from_idx ≤ 63) (ht : to_idx ≤ 63)
    (_hown : (pieces_of s p).testBit from_idx = true)
    (hv : is_move_valid s from_idx to_idx p = 2) :
    (0 ≤ captured_idx from_idx to_idx ∧ captured_idx from_idx to_idx ≤ 63) ∧
    (opponent_of (make_move s from_idx to_idx p) p).testBit
        (captured_idx from_idx to_idx).toNat = false ∧
    (make_move s from_idx to_idx p).kings.testBit (captured_idx from_idx to_idx).toNat = false ∧
    (∀ j : Nat, j ≠ (captured_idx from_idx to_idx).toNat →
      (opponent_of (make_move s from_idx to_idx p) p).testBit j =
        (opponent_of s p).testBit j) ∧
    (pieces_of (make_move s from_idx to_idx p) p).testBit to_idx = true ∧
    (pieces_of (make_move s from_idx to_idx p) p).testBit from_idx = false := by
  obtain ⟨mid, hmid, hm, _, _, htf, _⟩ := capture_facts s p from_idx to_idx ht hv
  have hopp : opponent_of s p < 2 ^ 64 := by
    unfold opponent_of; split_ifs
    · exact hw.2.1
    · exact hw.1
  rw [← hmid, Int.toNat_ofNat, make_move_opponent, make_move_kings, if_pos hv, if_pos hv,
    ← hmid, testBit_make_move_pieces s p from_idx to_idx hf ht,
    testBit_make_move_pieces s p from_idx to_idx hf ht]
  refine ⟨by omega, ?_, ?_, ?_, ?_, ?_⟩
  · rw [testBit_clear_bit _ _ (by omega)]; simp
  · rw [testBit_clear_bit _ _ (by omega)]; simp
  · intro j hj
    rw [testBit_clear_bit _ _ (by omega), Int.toNat_ofNat]
    by_cases h64 : j < 64
    · have : ¬ mid = j := fun h => hj h.symm
      simp [h64, this]
    · have : opponent_of s p < 2 ^ j :=
        lt_of_lt_of_le hopp (Nat.pow_le_pow_right (by norm_num) (by omega))
      simp [Nat.testBit_lt_two_pow this]
  · simp
  · have : ¬ to_idx = from_idx := htf
    simp [this]

/-- Claim C8: promotion. For every state and all squares in 0..63, if player 1
lands on row 0 or player 2 lands on row 7, then after `make_move` bit `to_idx`
is set in `kings`, whatever the classification of the move: the clean-up of a
capture never clears the king bit of the destination. -/
theorem make_move_promotion (s : GameState) (p : Int) (from_idx to_idx : Nat)
    (_hf : from_idx ≤ 63) (ht : to_idx ≤ 63)
    (hb : (p = 1 ∧ to_idx / 8 = 0) ∨ (p = 2 ∧ to_idx / 8 = 7)) :
    (make_move s from_idx to_idx p).kings.testBit to_idx = true := by
  have hbr : back_rank p to_idx := by
    unfold back_rank
    rw [tdiv_nat _ (by omega)]
    omega
  have hk : (kings_moved s from_idx to_idx p).testBit to_idx = true := by
    unfold kings_moved
    rw [if_pos hbr, testBit_set_bit _ _ (by omega)]
    simp
  rw [make_move_kings]
  split_ifs with hv
  · obtain ⟨mid, hmid, hm, hne, _⟩ := capture_facts s p from_idx to_idx ht hv
    rw [← hmid, testBit_clear_bit _ _ (by omega), hk, Int.toNat_ofNat]
    simp only [Bool.true_and, Bool.and_eq_true, decide_eq_true_eq, Bool.not_eq_true',
      decide_eq_false_iff_not]
    exact ⟨by omega, hne⟩
  · exact hk

/-- Claim C10: `initialize_game` writes the standard layout. Player 2 holds
exactly the playable squares of rows 0..2, Player 1 exactly those of rows 5..7,
and there are no kings; so each player has 12 pieces, no square is shared,
every piece is on a playable square, and the result is the same for every
prior state. -/
theorem initialize_game_layout (s : GameState) :
    (∀ i : Nat, (initialize_game s).player_two_pieces.testBit i = true ↔
      (i / 8 ≤ 2 ∧ playable i)) ∧
    (∀ i : Nat, (initialize_game s).player_one_pieces.testBit i = true ↔
      (5 ≤ i / 8 ∧ i / 8 ≤ 7 ∧ playable i)) ∧
    (initialize_game s).kings = 0 ∧
    popcount (initialize_game s).player_one_pieces = 12 ∧
    popcount (initialize_game s).player_two_pieces = 12 ∧
    disjoint_inv (initialize_game s) ∧
    playable_inv (initialize_game s) ∧
    (∀ s' : GameState, initialize_game s = initialize_game s') := by
  have hw : (initialize_game s).wf := by rw [initialize_game_eq]; decide
  refine ⟨?_, ?_, ?_, ?_, ?_, ?_, ?_, ?_⟩
  · intro i
    by_cases h64 : i < 64
    · rw [initialize_game_eq]
      revert i
      decide
    · rw [wf_testBit_ge _ hw.2.1 i (by omega)]
      constructor
      · intro h; exact absurd h (by simp)
      · intro h; omega
  · intro i
    by_cases h64 : i < 64
    · rw [initialize_game_eq]
      revert i
      decide
    · rw [wf_testBit_ge _ hw.1 i (by omega)]
      constructor
      · intro h; exact absurd h (by simp)
      · intro h; omega
  · rfl
  · rw [initialize_game_eq]; decide
  · rw [initialize_game_eq]; decide
  · rw [initialize_game_eq]; decide
  · apply playable_inv_of_check _ hw
    rw [initialize_game_eq]
    decide
  · intro s'
    rw [initialize_game_eq, initialize_game_eq]

/-- Witness of C1 on `mandatory_state`: while the man on 26 can capture, the step
44 to 35, which is in the move set of 44, is Invalid, and the jump 26 to 12 is
Capture. -/
theorem is_move_valid_decision_table_witness :
    (44 ≤ 63 ∧ 35 ≤ 63 ∧ has_any_captures mandatory_state 1 ≠ 0 ∧
      (generate_moves mandatory_state (44 : Nat) 1).testBit 35 = true) ∧
    is_move_valid mandatory_state (44 : Nat) (35 : Nat) 1 ≠ 1 ∧
    is_move_valid mandatory_state (44 : Nat) (35 : Nat) 1 = 0 ∧
    is_move_valid mandatory_state (26 : Nat) (12 : Nat) 1 = 2 :=
  ⟨⟨by decide, by decide, by decide, by decide⟩,
    (is_move_valid_decision_table mandatory_state 1 (Or.inl rfl) 44 35 (by decide)
      (by decide)).2.2.2 (by decide),
    by decide, by decide⟩

/-- Witness of C2: at the start of a game the man on 42 may step to 33. -/
theorem generate_moves_sound_witness :
    (42 ≤ 63 ∧ (generate_moves start_state (42 : Nat) 1).testBit 33 = true) ∧
    (33 ≤ 63 ∧
      (start_state.player_one_pieces.testBit 33 = false ∧
        start_state.player_two_pieces.testBit 33 = false) ∧
      ((((33 / 8 : Nat) : Int) - ((42 / 8 : Nat) : Int)).natAbs = 1 ∧
        (((33 % 8 : Nat) : Int) - ((42 % 8 : Nat) : Int)).natAbs = 1) ∧
      playable 33) :=
  ⟨⟨by decide, by decide⟩,
    generate_moves_sound start_state 1 (Or.inl rfl) 42 (by decide) 33 (by decide)⟩

/-- Witness of C3 on `capture_state`: the man on 26 may jump to 12. -/
theorem generate_captures_sound_witness :
    (26 ≤ 63 ∧ (generate_captures capture_state (26 : Nat) 1).testBit 12 = true) ∧
    (12 ≤ 63 ∧
      ((((12 / 8 : Nat) : Int) - ((26 / 8 : Nat) : Int)).natAbs = 2 ∧
        (((12 % 8 : Nat) : Int) - ((26 % 8 : Nat) : Int)).natAbs = 2) ∧
      (∃ mid : Nat, mid ≤ 63 ∧
        (mid : Int) = ((26 : Nat) : Int) + (((12 : Nat) : Int) - ((26 : Nat) : Int)).tdiv 2 ∧
        mid / 8 = (26 / 8 + 12 / 8) / 2 ∧ mid % 8 = (26 % 8 + 12 % 8) / 2 ∧
        (opponent_of capture_state 1).testBit mid = true) ∧
      (capture_state.player_one_pieces.testBit 12 = false ∧
        capture_state.player_two_pieces.testBit 12 = false) ∧
      playable 12) :=
  ⟨⟨by decide, by decide⟩,
    generate_captures_sound capture_state 1 (Or.inl rfl) 26 (by decide) 12 (by decide)⟩

/-- Witness of C5 on `capture_state`, for the jump 26 to 12. -/
theorem make_move_preserves_disjoint_witness :
    (disjoint_inv capture_state ∧ is_move_valid capture_state (26 : Nat) (12 : Nat) 1 = 2) ∧
    disjoint_inv (make_move capture_state (26 : Nat) (12 : Nat) 1) :=
  ⟨⟨by decide, by decide⟩,
    make_move_preserves_disjoint capture_state (by decide) 1 (Or.inl rfl) 26 12 (by decide)
      (by decide) (Or.inr (by decide))⟩

/-- Witness of C6 on `mandatory_state`, for the jump 26 to 12. -/
theorem make_move_preserves_playable_witness :
    (playable_inv mandatory_state ∧
      is_move_valid mandatory_state (26 : Nat) (12 : Nat) 1 = 2) ∧
    playable_inv (make_move mandatory_state (26 : Nat) (12 : Nat) 1) :=
  ⟨⟨playable_inv_of_check _ (by decide) (by decide), by decide⟩,
    make_move_preserves_playable mandatory_state
      (playable_inv_of_check _ (by decide) (by decide)) 1 (Or.inl rfl) 26 12 (by decide)
      (by decide) (Or.inr (by decide))⟩

/-- Witness of C7: Player 1 on 26 jumps the Player 2 king on 19 and lands on 12;
bit 19 is then clear in `player_two_pieces` and in `kings`, the other Player 2
piece stays, and bit 12 is set in `player_one_pieces`. -/
theorem make_move_capture_removal_witness :
    (capture_state.wf ∧ disjoint_inv capture_state ∧ kings_inv capture_state ∧
      playable_inv capture_state ∧ (pieces_of capture_state 1).testBit 26 = true ∧
      is_move_valid capture_state (26 : Nat) (12 : Nat) 1 = 2 ∧
      capture_state.player_two_pieces.testBit 19 = true ∧
      capture_state.kings.testBit 19 = true ∧
      captured_idx (26 : Nat) (12 : Nat) = 19) ∧
    (make_move capture_state (26 : Nat) (12 : Nat) 1).player_two_pieces.testBit 19 = false ∧
    (make_move capture_state (26 : Nat) (12 : Nat) 1).kings.testBit 19 = false ∧
    (make_move capture_state (26 : Nat) (12 : Nat) 1).player_two_pieces.testBit 17 = true ∧
    (make_move capture_state (26 : Nat) (12 : Nat) 1).player_one_pieces.testBit 12 = true ∧
    (make_move capture_state (26 : Nat) (12 : Nat) 1).player_one_pieces.testBit 26 = false :=
  have h := make_move_capture_removal capture_state (by decide) (by decide)
    (kings_inv_of_check _ (by decide) (by decide))
    (playable_inv_of_check _ (by decide) (by decide)) 1 (Or.inl rfl) 26 12 (by decide)
    (by decide) (by decide) (by decide)
  ⟨⟨by decide, by decide, kings_inv_of_check _ (by decide) (by decide),
      playable_inv_of_check _ (by decide) (by decide), by decide, by decide, by decide,
      by decide, by decide⟩,
    h.2.1, h.2.2.1, (h.2.2.2.1 17 (by decide)).trans (by decide), h.2.2.2.2.1, h.2.2.2.2.2⟩

/-- Witness of C8: a Player 2 man steps from 49 onto row 7 at 56 and is crowned. -/
theorem make_move_promotion_witness :
    (49 ≤ 63 ∧ 56 ≤ 63 ∧ 56 / 8 = 7 ∧ promotion_state.kings.testBit 56 = false ∧
      is_move_valid promotion_state (49 : Nat) (56 : Nat) 2 = 1) ∧
    (make_move promotion_state (49 : Nat) (56 : Nat) 2).kings.testBit 56 = true :=
  ⟨⟨by decide, by decide, by decide, by decide, by decide⟩,
    make_move_promotion promotion_state 2 49 56 (by decide) (by decide)
      (Or.inr ⟨rfl, by decide⟩)⟩

/-- Claim C4, evaluated where it fails: a Player 1 king on square 10 steps onto
its back rank at square 1. The state satisfies the invariants and the move is
classified Simple, yet after `make_move` the king bit of square 10 is still set
while square 10 is empty, so `kings` is no longer a subset of the pieces. -/
theorem make_move_king_onto_back_rank_breaks_kings_inv :
    (king_below_back_rank.wf ∧ disjoint_inv king_below_back_rank ∧
      kings_inv king_below_back_rank ∧ playable_inv king_below_back_rank ∧
      (pieces_of king_below_back_rank 1).testBit 10 = true ∧
      is_move_valid king_below_back_rank 10 1 1 = 1) ∧
    make_move king_below_back_rank 10 1 1 =
      { player_one_pieces := 2 ^ 1, player_two_pieces := 2 ^ 40, kings := 2 ^ 1 ||| 2 ^ 10 } ∧
    ¬ kings_inv (make_move king_below_back_rank 10 1 1) :=
  ⟨⟨by decide, by decide, kings_inv_of_check _ (by decide) (by decide),
      playable_inv_of_check _ (by decide) (by decide), by decide, by decide⟩,
    by decide,
    fun h => absurd (h 10 (by decide)) (by decide)⟩

/-- Claim C9, evaluated where it fails: a Player 1 king on its back rank at
square 1 steps to square 10 (not on the back rank) and back. Both piece masks
return to their original value, but the king bit of square 10 stays set, so the
king mask differs from the original. -/
theorem round_trip_from_back_rank_leaves_stale_king :
    (king_on_back_rank.wf ∧ disjoint_inv king_on_back_rank ∧
      kings_inv king_on_back_rank ∧ playable_inv king_on_back_rank ∧
      (pieces_of king_on_back_rank 1).testBit 1 = true ∧
      is_move_valid king_on_back_rank 1 10 1 = 1 ∧ ¬ back_rank 1 10) ∧
    make_move (make_move king_on_back_rank 1 10 1) 10 1 1 =
      { player_one_pieces := 2 ^ 1, player_two_pieces := 2 ^ 40, kings := 2 ^ 1 ||| 2 ^ 10 } ∧
    (make_move (make_move king_on_back_rank 1 10 1) 10 1 1).kings ≠ king_on_back_rank.kings :=
  ⟨⟨by decide, by decide, kings_inv_of_check _ (by decide) (by decide),
      playable_inv_of_check _ (by decide) (by decide), by decide, by decide, by decide⟩,
    by decide, by decide⟩

/-- Claim C12: `has_any_captures s p` returns 1 exactly when some square `idx` of
0..63 has its bit set in the mask of `p` and a non-zero `generate_captures`, and
returns 0 exactly when there is none; squares that hold no piece of `p` do not
count. -/
theorem has_any_captures_iff (s : GameState) (p : Int) (_hp : p = 1 ∨ p = 2) :
    (has_any_captures s p = 1 ↔
      ∃ idx : Nat, idx ≤ 63 ∧ (pieces_of s p).testBit idx = true ∧
        generate_captures s idx p ≠ 0) ∧
    (has_any_captures s p = 0 ↔
      ¬ ∃ idx : Nat, idx ≤ 63 ∧ (pieces_of s p).testBit idx = true ∧
        generate_captures s idx p ≠ 0) := by
  have key : ((List.range 64).any (fun idx =>
      decide (get_bit (pieces_of s p) (idx : Int) ≠ 0) &&
      decide (generate_captures s (idx : Int) p ≠ 0)) = true) ↔
      ∃ idx : Nat, idx ≤ 63 ∧ (pieces_of s p).testBit idx = true ∧
        generate_captures s idx p ≠ 0 := by
    rw [List.any_eq_true]
    constructor
    · rintro ⟨idx, hmem, h⟩
      rw [List.mem_range] at hmem
      rw [Bool.and_eq_true, decide_eq_true_eq, decide_eq_true_eq, get_bit_ne_zero,
        Int.toNat_ofNat] at h
      exact ⟨idx, by omega, h.1, h.2⟩
    · rintro ⟨idx, hle, h1, h2⟩
      refine ⟨idx, List.mem_range.2 (by omega), ?_⟩
      rw [Bool.and_eq_true, decide_eq_true_eq, decide_eq_true_eq, get_bit_ne_zero,
        Int.toNat_ofNat]
      exact ⟨h1, h2⟩
  unfold has_any_captures
  simp only [key]
  by_cases h : ∃ idx : Nat, idx ≤ 63 ∧ (pieces_of s p).testBit idx = true ∧
      generate_captures s idx p ≠ 0
  · simp [h]
  · simp [h]

/-- Claim C13: the bit primitives, for indices `i`, `j` of 0..63. Reading bit `j`
after `set_bit` at `i` gives 1 if `j = i` and the old bit otherwise; after
`clear_bit` it gives 0 if `j = i` and the old bit otherwise; after `toggle_bit`
it gives one minus the old bit if `j = i` and the old bit otherwise; and
`get_bit m i` is 1 exactly when bit `i` of `m` is set, 0 exactly when it is
clear, and never anything else. -/
theorem bit_primitives (m : Nat) (i j : Nat) (hi : i ≤ 63) (hj : j ≤ 63) :
    get_bit (set_bit m i) j = (if j = i then 1 else get_bit m j) ∧
    get_bit (clear_bit m i) j = (if j = i then 0 else get_bit m j) ∧
    get_bit (toggle_bit m i) j = (if j = i then 1 - get_bit m j else get_bit m j) ∧
    (get_bit m i = 1 ↔ m.testBit i = true) ∧
    (get_bit m i = 0 ↔ m.testBit i = false) ∧
    (get_bit m i = 0 ∨ get_bit m i = 1) := by
  simp only [get_bit_eq, testBit_set_bit _ _ (show (i : Int) < 64 by omega),
    testBit_clear_bit _ _ (show (i : Int) < 64 by omega),
    testBit_toggle_bit _ _ (show (i : Int) < 64 by omega), Int.toNat_ofNat]
  have hj64 : j < 64 := by omega
  by_cases hji : j = i
  · subst hji
    by_cases hm : m.testBit j = true <;> simp [hm]
  · have hij : ¬ i = j := fun h => hji h.symm
    by_cases hm : m.testBit j = true <;> by_cases hmi : m.testBit i = true <;>
      simp [hm, hmi, hji, hij, hj64]

/-- Claim C15: `generate_moves` is complete for its direction set. With `D` the
direction set of the spec for the player and the king bit of `idx`, bit `t` is in
`generate_moves s idx p` exactly when `t = idx + d` for some `d` in `D`, `t` is in
0..63, empty in both masks, one row and one column away from `idx`, and
playable. In particular a man of Player 1 only gets smaller targets and a man
of Player 2 only larger ones. -/
theorem generate_moves_complete (s : GameState) (p : Int) (hp : p = 1 ∨ p = 2)
    (idx : Nat) (_hi : idx ≤ 63) :
    (∀ t : Nat, (generate_moves s idx p).testBit t = true ↔
      ∃ d ∈ spec_directions p (s.kings.testBit idx), (t : Int) = (idx : Int) + d ∧ t ≤ 63 ∧
        (s.player_one_pieces.testBit t = false ∧ s.player_two_pieces.testBit t = false) ∧
        ((((t / 8 : Nat) : Int) - ((idx / 8 : Nat) : Int)).natAbs = 1 ∧
          (((t % 8 : Nat) : Int) - ((idx % 8 : Nat) : Int)).natAbs = 1) ∧
        playable t) ∧
    (p = 1 → s.kings.testBit idx = false →
      ∀ t : Nat, (generate_moves s idx p).testBit t = true → t < idx) ∧
    (p = 2 → s.kings.testBit idx = false →
      ∀ t : Nat, (generate_moves s idx p).testBit t = true → idx < t) := by
  have hdir := directions_eq_spec s p hp idx
  rw [Int.toNat_ofNat] at hdir
  have key : ∀ t : Nat, (generate_moves s idx p).testBit t = true ↔
      ∃ d ∈ spec_directions p (s.kings.testBit idx), (t : Int) = (idx : Int) + d ∧ t ≤ 63 ∧
        (s.player_one_pieces.testBit t = false ∧ s.player_two_pieces.testBit t = false) ∧
        ((((t / 8 : Nat) : Int) - ((idx / 8 : Nat) : Int)).natAbs = 1 ∧
          (((t % 8 : Nat) : Int) - ((idx % 8 : Nat) : Int)).natAbs = 1) ∧
        playable t := by
    intro t
    rw [testBit_generate_moves, hdir]
    constructor
    · rintro ⟨d, hd, hok, ht⟩
      have e := (move_ok_target s idx d hok).1
      rw [ht] at e
      obtain ⟨h1, h2, h3, h4, h5, h6⟩ := (move_ok_iff s idx d t e).1 hok
      exact ⟨d, hd, e, h1, ⟨h2, h3⟩, ⟨h4, h5⟩, h6⟩
    · rintro ⟨d, hd, e, h1, ⟨h2, h3⟩, ⟨h4, h5⟩, h6⟩
      refine ⟨d, hd, (move_ok_iff s idx d t e).2 ⟨h1, h2, h3, h4, h5, h6⟩, ?_⟩
      rw [← e, Int.toNat_ofNat]
  refine ⟨key, ?_, ?_⟩
  · intro h1 hk t ht
    obtain ⟨d, hd, e, _⟩ := (key t).1 ht
    simp only [spec_directions, hk, h1, if_true, Bool.false_eq_true, if_false, List.mem_cons,
      List.mem_singleton, List.not_mem_nil, or_false] at hd
    omega
  · intro h2 hk t ht
    obtain ⟨d, hd, e, _⟩ := (key t).1 ht
    simp only [spec_directions, hk, h2, Bool.false_eq_true, if_false, List.mem_cons,
      List.mem_singleton, List.not_mem_nil, or_false] at hd
    norm_num at hd
    omega

/-- Claim C16: `generate_captures` is complete for its direction set. Bit `t` is
in `generate_captures s idx p` exactly when, for some `d` of the direction set of
the spec, `t = idx + 2d`, the squares `idx + d` and `t` lie in 0..63, `idx + d`
holds a piece of the opponent, `t` is empty in both masks, two rows and two
columns away from `idx`, and playable. -/
theorem generate_captures_complete (s : GameState) (p : Int) (hp : p = 1 ∨ p = 2)
    (idx : Nat) (_hi : idx ≤ 63) (t : Nat) :
    (generate_captures s idx p).testBit t = true ↔
      ∃ d ∈ spec_directions p (s.kings.testBit idx), (t : Int) = (idx : Int) + 2 * d ∧
        (∃ mid : Nat, (mid : Int) = (idx : Int) + d ∧ mid ≤ 63 ∧
          (opponent_of s p).testBit mid = true) ∧
        t ≤ 63 ∧
        (s.player_one_pieces.testBit t = false ∧ s.player_two_pieces.testBit t = false) ∧
        ((((t / 8 : Nat) : Int) - ((idx / 8 : Nat) : Int)).natAbs = 2 ∧
          (((t % 8 : Nat) : Int) - ((idx % 8 : Nat) : Int)).natAbs = 2) ∧
        playable t := by
  have hdir := directions_eq_spec s p hp idx
  rw [Int.toNat_ofNat] at hdir
  rw [testBit_generate_captures, hdir]
  constructor
  · rintro ⟨d, hd, hok, ht⟩
    obtain ⟨e1, _, e2, _⟩ := capture_ok_target s idx p d hok
    rw [ht] at e1
    obtain ⟨h1, h2, h3, h4, h5, h6, h7, h8⟩ := (capture_ok_iff s idx p d t _ e1 e2).1 hok
    exact ⟨d, hd, e1, ⟨_, e2, h2, h3⟩, h1, ⟨h4, h5⟩, ⟨h6, h7⟩, h8⟩
  · rintro ⟨d, hd, e1, ⟨mid, e2, h2, h3⟩, h1, ⟨h4, h5⟩, ⟨h6, h7⟩, h8⟩
    refine ⟨d, hd, (capture_ok_iff s idx p d t mid e1 e2).2 ⟨h1, h2, h3, h4, h5, h6, h7, h8⟩, ?_⟩
    rw [← e1, Int.toNat_ofNat]

/-- Claim C17: king-flag carry and defensive clear. For every state, also one
with a stale king bit at `to_idx`, and squares `from_idx ≠ to_idx` of 0..63 with
`to_idx` not on the back rank of `p`, after `make_move` the king bit of `to_idx`
is the king bit `from_idx` had before, and the king bit of `from_idx` is clear. -/
theorem make_move_king_carry (s : GameState) (p : Int) (_hp : p = 1 ∨ p = 2)
    (from_idx to_idx : Nat) (hf : from_idx ≤ 63) (ht : to_idx ≤ 63) (hne : from_idx ≠ to_idx)
    (hnb : ¬ ((p = 1 ∧ to_idx / 8 = 0) ∨ (p = 2 ∧ to_idx / 8 = 7))) :
    (make_move s from_idx to_idx p).kings.testBit to_idx = s.kings.testBit from_idx ∧
    (make_move s from_idx to_idx p).kings.testBit from_idx = false := by
  have hnb' : ¬ back_rank p to_idx := fun h => hnb ((back_rank_iff p to_idx).1 h)
  constructor
  · rw [make_move_kings]
    split_ifs with hv
    · obtain ⟨mid, hmid, hm, hmt, _⟩ := capture_facts s p from_idx to_idx ht hv
      rw [← hmid, testBit_clear_bit _ _ (by omega),
        testBit_kings_moved_to s p from_idx to_idx ht hnb', Int.toNat_ofNat]
      have h64 : to_idx < 64 := by omega
      simp [h64, hmt]
    · exact testBit_kings_moved_to s p from_idx to_idx ht hnb'
  · rw [testBit_make_move_kings s p from_idx to_idx hf ht from_idx hne]
    by_cases hk : s.kings.testBit from_idx = true <;> simp [hk, hnb']

/-- Claim C18: frame of a simple move. On a state of 64-bit masks, when
`is_move_valid` returns Simple, after `make_move` the mover's mask is the old
one with bit `from_idx` cleared and bit `to_idx` set, the opponent's mask is
unchanged, and the king mask is unchanged away from `from_idx` and `to_idx`. -/
theorem make_move_simple_frame (s : GameState) (hw : s.wf) (p : Int) (_hp : p = 1 ∨ p = 2)
    (from_idx to_idx : Nat) (hf : from_idx ≤ 63) (ht : to_idx ≤ 63)
    (hv : is_move_valid s from_idx to_idx p = 1) :
    (∀ i : Nat, (pieces_of (make_move s from_idx to_idx p) p).testBit i =
      if i = to_idx then true else if i = from_idx then false
      else (pieces_of s p).testBit i) ∧
    opponent_of (make_move s from_idx to_idx p) p = opponent_of s p ∧
    (∀ i : Nat, i ≠ from_idx → i ≠ to_idx →
      (make_move s from_idx to_idx p).kings.testBit i = s.kings.testBit i) := by
  have hv2 : ¬ is_move_valid s from_idx to_idx p = 2 := by omega
  have hpw : pieces_of s p < 2 ^ 64 := by
    unfold pieces_of; split_ifs
    · exact hw.1
    · exact hw.2.1
  refine ⟨?_, ?_, ?_⟩
  · intro i
    rw [testBit_make_move_pieces s p from_idx to_idx hf ht]
    by_cases hit : i = to_idx
    · simp [hit]
    · have hti : ¬ to_idx = i := fun h => hit h.symm
      by_cases hif : i = from_idx
      · subst hif
        simp [hit, hti]
      · have hfi : ¬ from_idx = i := fun h => hif h.symm
        by_cases h64 : i < 64
        · simp [hit, hif, hti, hfi, h64]
        · simp [hit, hif, hti, hfi, wf_testBit_ge _ hpw i (by omega)]
  · rw [make_move_opponent, if_neg hv2]
  · intro i hif hit
    have hfi : ¬ from_idx = i := fun h => hif h.symm
    rw [testBit_make_move_kings s p from_idx to_idx hf ht i hit]
    by_cases h64 : i < 64
    · simp [hv2, hfi, h64]
    · simp [hv2, wf_testBit_ge _ hw.2.2 i (by omega)]


/-- Claim C14 fails as stated: on `mandatory_state`, validating the step 44 to 35
for Player 1 while the man on 26 can capture produces output. -/
theorem is_move_valid_prints_on_mandatory_capture :
    ¬ ((is_move_valid_run mandatory_state 44 35 1).2 = []) := by
  decide

/-- Claim C19: validation does not check who owns the origin square. There is a
state satisfying the invariants and squares of 0..63 where the origin holds no
piece of Player 1 and `is_move_valid` for Player 1 still accepts the move, so
that `make_move` would put a Player 1 piece on the target; the turn of
`game_loop`, which tests ownership first, rejects it. On `ownership_state` this
happens from the empty square 33 (Simple), from square 42 holding a Player 2
man (Simple) and from the empty square 26 (Capture). -/
theorem validation_ignores_ownership :
    (∃ (s : GameState) (from_idx to_idx : Nat), from_idx ≤ 63 ∧ to_idx ≤ 63 ∧
      (s.wf ∧ disjoint_inv s ∧ kings_inv s ∧ playable_inv s) ∧
      s.player_one_pieces.testBit from_idx = false ∧
      (is_move_valid s from_idx to_idx 1 = 1 ∨ is_move_valid s from_idx to_idx 1 = 2) ∧
      (make_move s from_idx to_idx 1).player_one_pieces.testBit to_idx = true ∧
      game_loop_turn s 1 from_idx to_idx = (s, 1)) ∧
    (ownership_state.player_one_pieces.testBit 33 = false ∧
      ownership_state.player_two_pieces.testBit 33 = false ∧
      is_move_valid ownership_state 33 24 1 = 1) ∧
    (ownership_state.player_two_pieces.testBit 42 = true ∧
      is_move_valid ownership_state 42 33 1 = 1) ∧
    (ownership_state.player_one_pieces.testBit 26 = false ∧
      ownership_state.player_two_pieces.testBit 26 = false ∧
      is_move_valid ownership_state 26 12 1 = 2) ∧
    (game_loop_turn ownership_state 1 33 24 = (ownership_state, 1) ∧
      game_loop_turn ownership_state 1 42 33 = (ownership_state, 1) ∧
      game_loop_turn ownership_state 1 26 12 = (ownership_state, 1)) :=
  ⟨⟨ownership_state, 33, 24, by decide, by decide,
      ⟨by decide, by decide, kings_inv_of_check _ (by decide) (by decide),
        playable_inv_of_check _ (by decide) (by decide)⟩,
      by decide, Or.inl (by decide), by decide, by decide⟩,
    ⟨by decide, by decide, by decide⟩, ⟨by decide, by decide⟩,
    ⟨by decide, by decide, by decide⟩, ⟨by decide, by decide, by decide⟩⟩

/-- Claim C11: piece counts under valid moves. On a state of 64-bit masks
satisfying the three invariants, when `from_idx` holds a piece of `p`: if the
move is a Capture, the opponent's mask has exactly one set bit less after
`make_move` and the mask of `p` has as many as before; if it is Simple, both
counts are unchanged. Consequently, along any list of valid turns, the mask of
the opponent of `q` has lost as many bits as `q` played captures, and it is 0
exactly when `q` has played as many captures as that mask had pieces. -/
theorem make_move_piece_counts (s : GameState) (hw : s.wf) (_hd : disjoint_inv s)
    (_hk : kings_inv s) (_hpl : playable_inv s) (p : Int) (_hp : p = 1 ∨ p = 2)
    (from_idx to_idx : Nat) (hf : from_idx ≤ 63) (ht : to_idx ≤ 63)
    (hown : (pieces_of s p).testBit from_idx = true) :
    (is_move_valid s from_idx to_idx p = 2 →
      popcount (opponent_of (make_move s from_idx to_idx p) p) + 1 =
        popcount (opponent_of s p) ∧
      popcount (pieces_of (make_move s from_idx to_idx p) p) = popcount (pieces_of s p)) ∧
    (is_move_valid s from_idx to_idx p = 1 →
      popcount (opponent_of (make_move s from_idx to_idx p) p) = popcount (opponent_of s p) ∧
      popcount (pieces_of (make_move s from_idx to_idx p) p) = popcount (pieces_of s p)) ∧
    (∀ (q : Int) (turns : List (Int × Nat × Nat)), (q = 1 ∨ q = 2) → valid_turns s turns →
      popcount (opponent_of (run_turns s turns) q) + captures_by q s turns =
        popcount (opponent_of s q) ∧
      (opponent_of (run_turns s turns) q = 0 ↔
        captures_by q s turns = popcount (opponent_of s q))) := by
  refine ⟨?_, ?_, ?_⟩
  · intro hv
    have h1 := popcount_make_move_opponent s p from_idx to_idx ht
    rw [if_pos hv] at h1
    exact ⟨h1, popcount_make_move_pieces s p from_idx to_idx hf ht hown (Or.inr hv)⟩
  · intro hv
    have h1 := popcount_make_move_opponent s p from_idx to_idx ht
    rw [if_neg (by omega)] at h1
    exact ⟨h1, popcount_make_move_pieces s p from_idx to_idx hf ht hown (Or.inl hv)⟩
  · intro q turns hq hv
    have hcount := popcount_run_turns q hq turns s hv
    refine ⟨hcount, ?_⟩
    have hwf := run_turns_wf turns s hw
    have hlt : opponent_of (run_turns s turns) q < 2 ^ 64 := by
      unfold opponent_of; split_ifs
      · exact hwf.2.1
      · exact hwf.1
    rw [← popcount_eq_zero_iff _ hlt]
    omega

/-- Claim C20: bit-index safety. For a player in {1,2} and squares `idx`,
`from_idx`, `to_idx` of 0..63, every index passed to `get_bit`, `set_bit` or
`clear_bit` and every shift amount used while running `generate_moves`,
`generate_captures`, `has_any_captures`, `is_move_valid` and `make_move` lies in
0..63; for a Capture this includes the captured index `from + (to - from)/2`.
The logged functions compute the same values as the plain ones. -/
theorem bit_index_safety (s : GameState) (p : Int) (_hp : p = 1 ∨ p = 2)
    (idx from_idx to_idx : Nat) (hi : idx ≤ 63) (hf : from_idx ≤ 63) (ht : to_idx ≤ 63) :
    ((∀ k ∈ (generate_moves_log s idx p).2, 0 ≤ k ∧ k ≤ 63) ∧
      (∀ k ∈ (generate_captures_log s idx p).2, 0 ≤ k ∧ k ≤ 63) ∧
      (∀ k ∈ (has_any_captures_log s p).2, 0 ≤ k ∧ k ≤ 63) ∧
      (∀ k ∈ (is_move_valid_log s from_idx to_idx p).2, 0 ≤ k ∧ k ≤ 63) ∧
      (∀ k ∈ (make_move_log s from_idx to_idx p).2, 0 ≤ k ∧ k ≤ 63)) ∧
    (is_move_valid s from_idx to_idx p = 2 →
      captured_idx from_idx to_idx ∈ (make_move_log s from_idx to_idx p).2 ∧
      0 ≤ captured_idx from_idx to_idx ∧ captured_idx from_idx to_idx ≤ 63) ∧
    ((generate_moves_log s idx p).1 = generate_moves s idx p ∧
      (generate_captures_log s idx p).1 = generate_captures s idx p ∧
      (has_any_captures_log s p).1 = has_any_captures s p ∧
      (is_move_valid_log s from_idx to_idx p).1 = is_move_valid s from_idx to_idx p ∧
      (make_move_log s from_idx to_idx p).1 = make_move s from_idx to_idx p) := by
  refine ⟨⟨generate_moves_log_range s idx p (by omega) (by omega),
      generate_captures_log_range s idx p (by omega) (by omega),
      has_any_captures_log_range s p, is_move_valid_log_range s p from_idx to_idx hf ht,
      make_move_log_range s p from_idx to_idx hf ht⟩, ?_,
    ⟨generate_moves_log_fst s idx p, generate_captures_log_fst s idx p,
      has_any_captures_log_fst s p, is_move_valid_log_fst s from_idx to_idx p,
      make_move_log_fst s from_idx to_idx p⟩⟩
  intro hv
  have hmem := captured_idx_mem_log s from_idx to_idx p hv
  exact ⟨hmem, make_move_log_range s p from_idx to_idx hf ht _ hmem⟩

/-- Witness of C20 on `capture_state`: the jump 26 to 12 uses the captured index
19, which is in range. -/
theorem bit_index_safety_witness :
    (26 ≤ 63 ∧ 12 ≤ 63 ∧ is_move_valid capture_state (26 : Nat) (12 : Nat) 1 = 2 ∧
      captured_idx (26 : Nat) (12 : Nat) = 19) ∧
    ((19 : Int) ∈ (make_move_log capture_state (26 : Nat) (12 : Nat) 1).2 ∧
      (0 : Int) ≤ 19 ∧ (19 : Int) ≤ 63) :=
  ⟨⟨by decide, by decide, by decide, by decide⟩,
    (bit_index_safety capture_state 1 (Or.inl rfl) 26 26 12 (by decide) (by decide)
      (by decide)).2.1 (by decide)⟩

/-- Witness of C11 on `mandatory_state`: the jump 26 to 12 takes the only Player 2
piece, keeps the two Player 1 pieces, and empties the Player 2 mask after one
capture. -/
theorem make_move_piece_counts_witness :
    (mandatory_state.wf ∧ disjoint_inv mandatory_state ∧ kings_inv mandatory_state ∧
      playable_inv mandatory_state ∧ (pieces_of mandatory_state 1).testBit 26 = true ∧
      is_move_valid mandatory_state (26 : Nat) (12 : Nat) 1 = 2 ∧
      valid_turns mandatory_state [(1, 26, 12)] ∧
      captures_by 1 mandatory_state [(1, 26, 12)] = 1 ∧
      popcount (opponent_of mandatory_state 1) = 1) ∧
    (popcount (opponent_of (make_move mandatory_state (26 : Nat) (12 : Nat) 1) 1) + 1 =
        popcount (opponent_of mandatory_state 1) ∧
      popcount (pieces_of (make_move mandatory_state (26 : Nat) (12 : Nat) 1) 1) =
        popcount (pieces_of mandatory_state 1)) ∧
    opponent_of (run_turns mandatory_state [(1, 26, 12)]) 1 = 0 :=
  have hvt : valid_turns mandatory_state [(1, 26, 12)] :=
    ⟨Or.inl rfl, by decide, by decide, by decide, Or.inr (by decide), trivial⟩
  have h := make_move_piece_counts mandatory_state (by decide) (by decide)
    (kings_inv_of_check _ (by decide) (by decide))
    (playable_inv_of_check _ (by decide) (by decide)) 1 (Or.inl rfl) 26 12 (by decide)
    (by decide) (by decide)
  ⟨⟨by decide, by decide, kings_inv_of_check _ (by decide) (by decide),
      playable_inv_of_check _ (by decide) (by decide), by decide, by decide, hvt, by decide,
      by decide⟩,
    h.1 (by decide),
    ((h.2.2 1 [(1, 26, 12)] (Or.inl rfl) hvt).2).2 (by decide)⟩

/-- Witness of C12 on `mandatory_state`: the man on 26 has a capture. -/
theorem has_any_captures_iff_witness :
    (26 ≤ 63 ∧ (pieces_of mandatory_state 1).testBit 26 = true ∧
      generate_captures mandatory_state (26 : Nat) 1 ≠ 0) ∧
    has_any_captures mandatory_state 1 = 1 :=
  ⟨⟨by decide, by decide, by decide⟩,
    (has_any_captures_iff mandatory_state 1 (Or.inl rfl)).1.2
      ⟨26, by decide, by decide, by decide⟩⟩

/-- Witness of C13 on the mask 5. -/
theorem bit_primitives_witness :
    (3 ≤ 63 ∧ 1 ≤ 63) ∧
    (get_bit (set_bit 5 (3 : Nat)) (3 : Nat) = 1 ∧ get_bit (set_bit 5 (3 : Nat)) (1 : Nat) = 0 ∧
      get_bit (clear_bit 5 (2 : Nat)) (2 : Nat) = 0 ∧
      get_bit (toggle_bit 5 (2 : Nat)) (2 : Nat) = 0) :=
  ⟨⟨by decide, by decide⟩,
    (bit_primitives 5 3 3 (by decide) (by decide)).1.trans (by decide),
    (bit_primitives 5 3 1 (by decide) (by decide)).1.trans (by decide),
    (bit_primitives 5 2 2 (by decide) (by decide)).2.1.trans (by decide),
    (bit_primitives 5 2 2 (by decide) (by decide)).2.2.1.trans (by decide)⟩

/-- Witness of C15: at the start of a game, square 35 meets the conditions for the
man on 42, so it is generated, and it is a smaller index. -/
theorem generate_moves_complete_witness :
    (42 ≤ 63 ∧ start_state.kings.testBit 42 = false ∧
      start_state.player_one_pieces.testBit 35 = false ∧
      start_state.player_two_pieces.testBit 35 = false ∧ playable 35) ∧
    ((generate_moves start_state (42 : Nat) 1).testBit 35 = true ∧ 35 < 42) :=
  have h := generate_moves_complete start_state 1 (Or.inl rfl) 42 (by decide)
  have h35 : (generate_moves start_state (42 : Nat) 1).testBit 35 = true :=
    (h.1 35).2 ⟨-7, by decide, by decide, by decide, ⟨by decide, by decide⟩,
      ⟨by decide, by decide⟩, by decide⟩
  ⟨⟨by decide, by decide, by decide, by decide, by decide⟩, h35,
    h.2.1 rfl (by decide) 35 h35⟩

/-- Witness of C16 on `capture_state`: square 12 meets the conditions for the man
on 26. -/
theorem generate_captures_complete_witness :
    (26 ≤ 63 ∧ (opponent_of capture_state 1).testBit 19 = true ∧
      capture_state.player_one_pieces.testBit 12 = false ∧
      capture_state.player_two_pieces.testBit 12 = false ∧ playable 12) ∧
    (generate_captures capture_state (26 : Nat) 1).testBit 12 = true :=
  ⟨⟨by decide, by decide, by decide, by decide, by decide⟩,
    (generate_captures_complete capture_state 1 (Or.inl rfl) 26 (by decide) 12).2
      ⟨-7, by decide, by decide, ⟨19, by decide, by decide, by decide⟩, by decide,
        ⟨by decide, by decide⟩, ⟨by decide, by decide⟩, by decide⟩⟩

/-- Witness of C17: the Player 1 king steps from 1 to 10 and takes its king bit
along. -/
theorem make_move_king_carry_witness :
    (1 ≤ 63 ∧ 10 ≤ 63 ∧ 1 ≠ 10 ∧ 10 / 8 ≠ 0 ∧ king_on_back_rank.kings.testBit 1 = true ∧
      king_on_back_rank.kings.testBit 10 = false) ∧
    ((make_move king_on_back_rank (1 : Nat) (10 : Nat) 1).kings.testBit 10 = true ∧
      (make_move king_on_back_rank (1 : Nat) (10 : Nat) 1).kings.testBit 1 = false) :=
  have h := make_move_king_carry king_on_back_rank 1 (Or.inl rfl) 1 10 (by decide) (by decide)
    (by decide) (by decide)
  ⟨⟨by decide, by decide, by decide, by decide, by decide, by decide⟩,
    h.1.trans (by decide), h.2⟩

/-- Witness of C18 on `ownership_state`, for the step 44 to 35. -/
theorem make_move_simple_frame_witness :
    (ownership_state.wf ∧ 44 ≤ 63 ∧ 35 ≤ 63 ∧
      is_move_valid ownership_state (44 : Nat) (35 : Nat) 1 = 1) ∧
    ((pieces_of (make_move ownership_state (44 : Nat) (35 : Nat) 1) 1).testBit 35 = true ∧
      (pieces_of (make_move ownership_state (44 : Nat) (35 : Nat) 1) 1).testBit 44 = false ∧
      opponent_of (make_move ownership_state (44 : Nat) (35 : Nat) 1) 1 =
        opponent_of ownership_state 1 ∧
      (make_move ownership_state (44 : Nat) (35 : Nat) 1).kings.testBit 19 =
        ownership_state.kings.testBit 19) :=
  have h := make_move_simple_frame ownership_state (by decide) 1 (Or.inl rfl) 44 35 (by decide)
    (by decide) (by decide)
  ⟨⟨by decide, by decide, by decide, by decide⟩,
    (h.1 35).trans (by decide), (h.1 44).trans (by decide), h.2.1,
    h.2.2 19 (by decide) (by decide)⟩

/-- Claim C14, as amended: the queries and the memory. `generate_moves`,
`generate_captures` and `has_any_captures` hand back the state and the standard
output exactly as they received them. `is_move_valid` hands back the state
unchanged, the three masks included, and writes to standard output in exactly
one case: when `has_any_captures` is true and `to_idx` is not in the capture set
of `from_idx`, it appends the one line `You must capture if possible.`, and it
then returns 0; in every other case the standard output is unchanged. The values
returned are those of the plain functions. -/
theorem is_move_valid_frame (w : World) (p : Int) (idx from_idx to_idx : Nat)
    (_hi : idx ≤ 63) (_hf : from_idx ≤ 63) (ht : to_idx ≤ 63) :
    ((generate_moves_st w idx p).2 = w ∧ (generate_captures_st w idx p).2 = w ∧
      (has_any_captures_st w p).2 = w) ∧
    (is_move_valid_st w from_idx to_idx p).2.state = w.state ∧
    (is_move_valid_st w from_idx to_idx p).2.out =
      w.out ++
        (if has_any_captures w.state p ≠ 0 ∧
            (generate_captures w.state from_idx p).testBit to_idx = false
          then ["You must capture if possible.\n"] else []) ∧
    ((is_move_valid_st w from_idx to_idx p).2.out ≠ w.out →
      (is_move_valid_st w from_idx to_idx p).1 = 0) ∧
    ((generate_moves_st w idx p).1 = generate_moves w.state idx p ∧
      (generate_captures_st w idx p).1 = generate_captures w.state idx p ∧
      (has_any_captures_st w p).1 = has_any_captures w.state p ∧
      (is_move_valid_st w from_idx to_idx p).1 = is_move_valid w.state from_idx to_idx p) := by
  have hout := is_move_valid_run_output w.state p from_idx to_idx ht
  refine ⟨⟨rfl, rfl, by rw [has_any_captures_st_eq]⟩, by rw [is_move_valid_st_eq], ?_, ?_,
    ⟨rfl, rfl, by rw [has_any_captures_st_eq], by rw [is_move_valid_st_eq]; rfl⟩⟩
  · rw [is_move_valid_st_eq, ← hout.1]
  · rw [is_move_valid_st_eq]
    intro h
    apply hout.2
    intro hnil
    apply h
    show w.out ++ (is_move_valid_run w.state from_idx to_idx p).2 = w.out
    rw [hnil, List.append_nil]

/-- Witness of C14 as amended, from the memory holding `mandatory_state` and an
empty standard output: the step 44 to 35 leaves the state as it was and prints
the line; the jump 26 to 12 prints nothing. -/
theorem is_move_valid_frame_witness :
    (44 ≤ 63 ∧ 35 ≤ 63 ∧ has_any_captures mandatory_state 1 ≠ 0 ∧
      (generate_captures mandatory_state (44 : Nat) 1).testBit 35 = false) ∧
    ((is_move_valid_st ⟨mandatory_state, []⟩ (44 : Nat) (35 : Nat) 1).2.state = mandatory_state ∧
      (is_move_valid_st ⟨mandatory_state, []⟩ (44 : Nat) (35 : Nat) 1).2.out =
        ["You must capture if possible.\n"] ∧
      (is_move_valid_st ⟨mandatory_state, []⟩ (44 : Nat) (35 : Nat) 1).1 = 0) ∧
    is_move_valid_st ⟨mandatory_state, []⟩ (26 : Nat) (12 : Nat) 1 =
      (2, ⟨mandatory_state, []⟩) :=
  have h := is_move_valid_frame ⟨mandatory_state, []⟩ 1 44 44 35 (by decide) (by decide)
    (by decide)
  ⟨⟨by decide, by decide, by decide, by decide⟩,
    ⟨h.2.1, h.2.2.1.trans (by decide), h.2.2.2.1 (by decide)⟩,
    by decide⟩

end Checkers
